import Mathlib

/-!
Verification development for the GReNMlin graph/model synchronization engine
(`gui.py`).  The definitions below are a shallow embedding of the source:
pure data is translated to Lean structures, the stateful Qt view is modelled
as explicit state passing on a `NetworkView` record, and fallible steps
(KeyError / ValueError during file loading, KeyError in `del`) are modelled
with `Option` results or success flags.  Numbers that the source stores as
Python floats are modelled as rationals (the engine only copies and compares
them; it performs no float arithmetic).  Python object identity of
`NetworkNode` / `NetworkEdge` instances is modelled by a `ref : Nat` field
drawn from a monotone counter, which also supplies the `uuid4` node ids.
-/

/-- `EditMode` enumeration from `gui.py`. -/
inductive EditMode where
  | NORMAL
  | ADDING_NODE
  | ADDING_EDGE
deriving DecidableEq, Repr

/-- `EdgeType` enumeration from `gui.py` (`ACTIVATION = 1`, `INHIBITION = -1`). -/
inductive EdgeType where
  | ACTIVATION
  | INHIBITION
deriving DecidableEq, Repr

/-- `EdgeType.value` (the integer value of the enum member). -/
def EdgeType.value : EdgeType → Int
  | .ACTIVATION => 1
  | .INHIBITION => -1

/-- `EdgeType(v)` — the Python enum constructor; raises `ValueError` (here:
`none`) for any value other than `1` and `-1`. -/
def EdgeType.ofValue : Int → Option EdgeType
  | 1 => some .ACTIVATION
  | -1 => some .INHIBITION
  | _ => none

/-- A species record of the model: the dict `{"name": ..., "delta"?: ...}`;
`delta = none` models the absence of the `"delta"` key. -/
structure Species where
  name : String
  delta : Option Rat
deriving DecidableEq, Repr

/-- A regulator entry embedded in a gene: `{"name", "type", "Kd", "n"}`. -/
structure Regulator where
  name : String
  type : Int
  Kd : Rat
  n : Rat
deriving DecidableEq, Repr

/-- A product entry embedded in a gene: `{"name"}`. -/
structure Product where
  name : String
deriving DecidableEq, Repr

/-- A gene record `{"alpha", "regulators", "products", "logic_type"}`. -/
structure Gene where
  alpha : Rat
  regulators : List Regulator
  products : List Product
  logic_type : String
deriving DecidableEq, Repr

/-- The logical model owned by the `GRN` class (module `grn`). -/
structure GRN where
  species : List Species
  input_species_names : List String
  genes : List Gene
deriving DecidableEq, Repr

/-- `GRN()` — a fresh empty model. -/
def GRN.empty : GRN := ⟨[], [], []⟩

/-- Modelled from the spec: `GRN.add_species` lives in module `grn`, which is
not under `src/`.  Per the data model a regular (non-input) species record
carries its degradation rate `delta`; the method appends the record to the
species list. -/
def GRN.add_species (g : GRN) (name : String) (delta : Rat) : GRN :=
  { g with species := g.species ++ [⟨name, some delta⟩] }

/-- Modelled from the spec: `GRN.add_input_species` lives in module `grn`,
which is not under `src/`.  Per the data model an input species record never
carries `delta`, and its name is added to the input set. -/
def GRN.add_input_species (g : GRN) (name : String) : GRN :=
  { g with species := g.species ++ [⟨name, none⟩],
           input_species_names := g.input_species_names ++ [name] }

/-- Modelled from the spec: `GRN.add_gene` lives in module `grn`, which is
not under `src/`.  It appends a gene record built from the given alpha,
regulator list, product list and logic type. -/
def GRN.add_gene (g : GRN) (alpha : Rat) (regulators : List Regulator)
    (products : List Product) (logic_type : String) : GRN :=
  { g with genes := g.genes ++ [⟨alpha, regulators, products, logic_type⟩] }

/-- `GRN.species_names` — the list of names of the species records. -/
def GRN.species_names (g : GRN) : List String := g.species.map (·.name)

/-- A `NetworkNode` graphics item.  `ref` models Python object identity;
`posx`/`posy` model `pos()` (the constructor subtracts `radius` from the
center coordinates it receives, see `NetworkNode.__init__`). -/
structure NetworkNode where
  ref : Nat
  species_name : String
  display_name : String
  node_id : String
  posx : Rat
  posy : Rat
  logic_type : String
  alpha : Rat
deriving DecidableEq, Repr

/-- The node radius: every node is constructed with the default `radius=20`. -/
def nodeRadius : Rat := 20

/-- `display_name or species_name` — Python falsiness: `None` and `""` both
fall back to the species name. -/
def resolveDisplay (display : Option String) (species : String) : String :=
  match display with
  | some d => if d = "" then species else d
  | none => species

/-- The string of a generated `uuid.uuid4()`; the model draws them from the
state counter (an injective supply, standing for the collision-freeness of
`uuid4`). -/
def uuidString (k : Nat) : String := "uuid-" ++ String.mk (List.replicate k 'u')

/-- A `NetworkEdge` graphics item.  The source holds references to the two
node objects; the model snapshots their values (no node aliased by an edge is
mutated after the edge is created in any operation modelled here), with `ref`
carrying object identity. -/
structure NetworkEdge where
  ref : Nat
  source_node : NetworkNode
  target_node : NetworkNode
  edge_type : EdgeType
  kd : Rat
  n : Rat
deriving DecidableEq, Repr

/-- The state of `NetworkView` (plus the monotone `counter` that supplies
object ids and uuids).  `nodes` is the insertion-ordered dict
`node_id-at-insertion → NetworkNode`; `temp_line` records whether the
temporary rubber line exists. -/
structure NetworkView where
  grn : GRN
  nodes : List (String × NetworkNode)
  edges : List NetworkEdge
  mode : EditMode
  source_node : Option NetworkNode
  temp_line : Bool
  edge_type : EdgeType
  counter : Nat
deriving DecidableEq, Repr

/-- Python `dict[k]` / `dict.get(k)` on the insertion-ordered map. -/
def dictGet (l : List (String × NetworkNode)) (k : String) : Option NetworkNode :=
  (l.find? (fun kv => kv.1 = k)).map (·.2)

/-- Python `dict[k] = v`: replace in place if the key exists, else append. -/
def dictInsert (l : List (String × NetworkNode)) (k : String) (v : NetworkNode) :
    List (String × NetworkNode) :=
  if l.any (fun kv => kv.1 = k) then
    l.map (fun kv => if kv.1 = k then (k, v) else kv)
  else l ++ [(k, v)]

/-- The fresh `NetworkView` built in `NetworkView.__init__`. -/
def NetworkView.init : NetworkView :=
  { grn := GRN.empty, nodes := [], edges := [], mode := .NORMAL,
    source_node := none, temp_line := false, edge_type := .ACTIVATION, counter := 0 }

/-- `NetworkView.clear` — empties nodes/edges and replaces the GRN with a
fresh one (mode, pending-edge state and the id counter are untouched). -/
def NetworkView.clear (s : NetworkView) : NetworkView :=
  { s with nodes := [], edges := [], grn := GRN.empty }

/-- The `mode` property setter: on an actual change, `_handle_mode_change`
removes the temporary line and resets `source_node`. -/
def NetworkView.setMode (s : NetworkView) (m : EditMode) : NetworkView :=
  if s.mode = m then s
  else { s with mode := m, source_node := none, temp_line := false }

/-- `NetworkView.set_edge_mode`. -/
def NetworkView.set_edge_mode (s : NetworkView) (enabled : Bool) : NetworkView :=
  s.setMode (if enabled then .ADDING_EDGE else .NORMAL)

/-- `NetworkView.add_node` (explicit-coordinates path): constructs a
`NetworkNode` (which sets `pos` to the center minus the radius, assigns a
fresh uuid id, and defaults `alpha` to `10.0` — `add_node` passes no alpha),
registers it in the `nodes` dict under its fresh id, and returns it. -/
def NetworkView.add_node (s : NetworkView) (species_name : String)
    (logic_type : String) (x y : Rat) (display_name : Option String) :
    NetworkView × NetworkNode :=
  let node : NetworkNode :=
    { ref := s.counter
      species_name := species_name
      display_name := resolveDisplay display_name species_name
      node_id := uuidString s.counter
      posx := x - nodeRadius
      posy := y - nodeRadius
      logic_type := logic_type
      alpha := 10 }
  ({ s with nodes := dictInsert s.nodes node.node_id node, counter := s.counter + 1 },
   node)

/-- `NetworkView.node_clicked` — in edge mode with no pending source, the
clicked node becomes the pending source and the temporary line appears. -/
def NetworkView.node_clicked (s : NetworkView) (node : NetworkNode) : NetworkView :=
  if s.mode = .ADDING_EDGE ∧ s.source_node = none then
    { s with source_node := some node, temp_line := true }
  else s

/-- `NetworkView.complete_edge` — commits the pending edge to a different
target node: appends the visual edge (default `kd=5.0`, `n=2.0`), adds the
corresponding gene to the GRN, and then assigns `mode = NORMAL` (the setter
clears the pending source and the temporary line). -/
def NetworkView.complete_edge (s : NetworkView) (target : NetworkNode) : NetworkView :=
  match s.source_node with
  | none => s
  | some src =>
    if src.ref = target.ref then s
    else
      let edge : NetworkEdge :=
        { ref := s.counter, source_node := src, target_node := target,
          edge_type := s.edge_type, kd := 5, n := 2 }
      let regulator : Regulator :=
        { name := src.species_name, type := s.edge_type.value, Kd := edge.kd, n := edge.n }
      let s1 := { s with
        edges := s.edges ++ [edge],
        grn := s.grn.add_gene target.alpha [regulator] [⟨target.species_name⟩] target.logic_type,
        counter := s.counter + 1 }
      s1.setMode .NORMAL

/-- `NetworkView.mouseReleaseEvent` (left button): with a pending source,
the first node under the cursor other than the source becomes the target and
the edge is committed; otherwise the attempt is abandoned — the temporary
line and the pending source are discarded and the mode is (re)assigned
`ADDING_EDGE`. -/
def NetworkView.mouseReleaseEvent (s : NetworkView) (itemsUnder : List NetworkNode) :
    NetworkView :=
  match s.source_node with
  | none => s
  | some src =>
    match itemsUnder.find? (fun n => ¬ n.ref = src.ref) with
    | some target => s.complete_edge target
    | none =>
      let s1 := { s with source_node := none, temp_line := false }
      s1.setMode .ADDING_EDGE

/-- `gene["regulators"] = [r for r in gene["regulators"] if r["name"] != name]`. -/
def filterRegs (g : Gene) (name : String) : Gene :=
  { g with regulators := g.regulators.filter (fun r => ¬ r.name = name) }

/-- Termination helper for `pruneGenes`: erasing the element just written by
`set` strictly shrinks the measure. -/
theorem length_erase_set_lt (genes : List Gene) (i : Nat) (g1 : Gene)
    (h : i < genes.length) :
    ((genes.set i g1).erase g1).length - i < genes.length - i := by
  have hi : i < (genes.set i g1).length := by simpa using h
  have hmem : g1 ∈ genes.set i g1 := by
    have hg := List.get_mem (genes.set i g1) i hi
    simpa using hg
  have hlen := List.length_erase_of_mem hmem
  have hset : (genes.set i g1).length = genes.length := by simp
  omega

/-- The regulator-removal loop at the end of `delete_node`: Python's list
iterator advances its index on every step (the filtered gene is written back
in place first, mutating the dict at the current slot), while `list.remove`
shrinks the list in place and deletes the first value-equal gene; after a
removal the element that slides into the freed slot is therefore skipped. -/
def pruneGenes (genes : List Gene) (i : Nat) (name : String) : List Gene :=
  if h : i < genes.length then
    let g1 := filterRegs (genes.get ⟨i, h⟩) name
    let genes1 := genes.set i g1
    if g1.regulators.isEmpty then
      pruneGenes (genes1.erase g1) (i + 1) name
    else
      pruneGenes genes1 (i + 1) name
  else genes
termination_by genes.length - i
decreasing_by
  · have := length_erase_set_lt genes i (filterRegs (genes.get ⟨i, h⟩) name) h
    omega
  · simp only [List.length_set]
    omega

/-- `NetworkView.delete_node` (the path taken after the user confirms):
removes all incident edges, deletes the dict entry under `node.node_id`
(Python raises `KeyError` when the key is absent — modelled by the `false`
flag, with the edge removal already applied), then unconditionally removes
the node's species from the species list and the input list, drops genes
producing that species, and strips it from the remaining genes' regulators
(removing genes left regulator-less). -/
def NetworkView.delete_node (s : NetworkView) (node : NetworkNode) :
    NetworkView × Bool :=
  let keptEdges := s.edges.filter
    (fun e => ¬ (e.source_node.ref = node.ref ∨ e.target_node.ref = node.ref))
  let s1 := { s with edges := keptEdges }
  if s1.nodes.any (fun kv => kv.1 = node.node_id) then
    let nodes1 := s1.nodes.filter (fun kv => ¬ kv.1 = node.node_id)
    let species1 := s1.grn.species.filter (fun sp => ¬ sp.name = node.species_name)
    let inputs1 :=
      if node.species_name ∈ s1.grn.input_species_names then
        s1.grn.input_species_names.erase node.species_name
      else s1.grn.input_species_names
    let genes1 := s1.grn.genes.filter
      (fun g => ¬ g.products.any (fun p => p.name = node.species_name))
    let genes2 := pruneGenes genes1 0 node.species_name
    ({ s1 with nodes := nodes1,
               grn := { species := species1, input_species_names := inputs1,
                        genes := genes2 } }, true)
  else (s1, false)

/-- Replace the first species record with the given name (the `break` in the
source loops). -/
def modifyFirstSpecies (l : List Species) (name : String) (f : Species → Species) :
    List Species :=
  match l with
  | [] => []
  | sp :: rest =>
    if sp.name = name then f sp :: rest else sp :: modifyFirstSpecies rest name f

/-- `NetworkView.toggle_node_type` (the accepted-dialog path; `delta` is the
value collected by the dialog when converting an input species to a regular
one).  Input → regular: remove the name from the input list and set `delta`
on the first matching species record.  Regular → input: append the name to
the input list and delete `delta` from the first matching species record. -/
def NetworkView.toggle_node_type (s : NetworkView) (node : NetworkNode) (delta : Rat) :
    NetworkView :=
  if node.species_name ∈ s.grn.input_species_names then
    { s with grn := { s.grn with
        input_species_names := s.grn.input_species_names.erase node.species_name,
        species := modifyFirstSpecies s.grn.species node.species_name
          (fun sp => { sp with delta := some delta }) } }
  else
    { s with grn := { s.grn with
        input_species_names := s.grn.input_species_names ++ [node.species_name],
        species := modifyFirstSpecies s.grn.species node.species_name
          (fun sp => { sp with delta := none }) } }

/-- `ParameterPanel.save_species_parameters`: retype or re-parameterize the
selected species.  Converting to input deletes `delta` from every matching
species record (this loop has no `break`); converting to regular sets
`delta` on the first matching record; staying regular updates `delta` on the
first matching record; staying input changes nothing. -/
def ParameterPanel.save_species_parameters (s : NetworkView) (species_name : String)
    (will_be_input : Bool) (new_delta : Rat) : NetworkView :=
  if species_name = "" then s
  else
    let is_currently_input := species_name ∈ s.grn.input_species_names
    if is_currently_input ≠ will_be_input then
      if will_be_input then
        { s with grn := { s.grn with
            input_species_names := s.grn.input_species_names ++ [species_name],
            species := s.grn.species.map
              (fun sp => if sp.name = species_name ∧ sp.delta.isSome then
                           { sp with delta := none } else sp) } }
      else
        { s with grn := { s.grn with
            input_species_names := s.grn.input_species_names.erase species_name,
            species := modifyFirstSpecies s.grn.species species_name
              (fun sp => { sp with delta := some new_delta }) } }
    else if ¬ will_be_input then
      { s with grn := { s.grn with
          species := modifyFirstSpecies s.grn.species species_name
            (fun sp => { sp with delta := some new_delta }) } }
    else s

/-- `NetworkEdge.delete_edge`: `view.edges.remove(self)` removes the first
identical edge (raising `ValueError` before any model change when the edge
is absent — modelled by returning the state unchanged), then removes every
gene having the edge's source species among its regulators and the edge's
target species among its products. -/
def NetworkEdge.delete_edge (s : NetworkView) (e : NetworkEdge) : NetworkView :=
  if s.edges.any (fun e1 => e1.ref = e.ref) then
    let edges1 := s.edges.eraseP (fun e1 => e1.ref = e.ref)
    let genes1 := s.grn.genes.filter
      (fun g => ¬ ((g.regulators.any (fun r => r.name = e.source_node.species_name)) ∧
                   (g.products.any (fun p => p.name = e.target_node.species_name))))
    { s with edges := edges1, grn := { s.grn with genes := genes1 } }
  else s

/-! ### Persistence codec (`MainWindow.save_network` / `MainWindow.load_network`)

A parsed JSON document is modelled by the `Raw*` structures: `Option` fields
model present/absent keys.  `json.load` failing on malformed input is
modelled by passing `none` instead of a document to `load_network`.  The
legacy keys (`name` on node records, `source`/`target` on edge records) are
carried so legacy documents can be written down; the loader never reads
them. -/

/-- A species record of the document. -/
structure RawSpecies where
  name : Option String
  delta : Option Rat
deriving DecidableEq, Repr

/-- A node record of the document. -/
structure RawNodeData where
  node_id : Option String
  species_name : Option String
  display_name : Option String
  x : Option Rat
  y : Option Rat
  logic_type : Option String
  alpha : Option Rat
  name : Option String
deriving DecidableEq, Repr

/-- An edge record of the document. -/
structure RawEdgeData where
  source_id : Option String
  target_id : Option String
  source_species : Option String
  target_species : Option String
  type : Option Int
  kd : Option Rat
  n : Option Rat
  source : Option String
  target : Option String
deriving DecidableEq, Repr

/-- The `"grn"` sub-document. -/
structure RawGRNData where
  species : Option (List RawSpecies)
  input_species_names : Option (List String)
  genes : Option (List Gene)
deriving DecidableEq, Repr

/-- A whole parsed `.grn` document. -/
structure NetworkData where
  nodes : Option (List RawNodeData)
  edges : Option (List RawEdgeData)
  grn : Option RawGRNData
deriving DecidableEq, Repr

/-- The node record written by `save_network` (`pos()` coordinates;
`str(node.logic_type)` is the string itself). -/
def nodeToRaw (nd : NetworkNode) : RawNodeData :=
  { node_id := some nd.node_id, species_name := some nd.species_name,
    display_name := some nd.display_name, x := some nd.posx, y := some nd.posy,
    logic_type := some nd.logic_type, alpha := some nd.alpha, name := none }

/-- The edge record written by `save_network`. -/
def edgeToRaw (e : NetworkEdge) : RawEdgeData :=
  { source_id := some e.source_node.node_id, target_id := some e.target_node.node_id,
    source_species := some e.source_node.species_name,
    target_species := some e.target_node.species_name,
    type := some e.edge_type.value, kd := some e.kd, n := some e.n,
    source := none, target := none }

/-- One iteration of the `species_data` loop in `save_network`: if the
node's species name is not yet a key, look its record up in the GRN and keep
it (a name whose lookup fails contributes nothing and stays unseen). -/
def speciesStep (grnSpecies : List Species) (acc : List Species)
    (kv : String × NetworkNode) : List Species :=
  if acc.any (fun sp => sp.name = kv.2.species_name) then acc
  else
    match grnSpecies.find? (fun sp => sp.name = kv.2.species_name) with
    | some info => acc ++ [info]
    | none => acc

/-- The `species_data` dict built while saving, iterating the nodes. -/
def buildSpeciesData (nodes : List (String × NetworkNode)) (grnSpecies : List Species) :
    List Species :=
  nodes.foldl (speciesStep grnSpecies) []

/-- `MainWindow.save_network` (the serialization itself; file dialog and I/O
are outside the model): node records in dict order, the species list rebuilt
from the nodes, the input list and genes passed through, and edge records
filtered to edges whose endpoint ids belong to current nodes. -/
def MainWindow.save_network (s : NetworkView) : NetworkData :=
  let validIds := s.nodes.map (fun kv => kv.2.node_id)
  { nodes := some (s.nodes.map (fun kv => nodeToRaw kv.2)),
    edges := some (((s.edges.filter
        (fun e => e.source_node.node_id ∈ validIds ∧ e.target_node.node_id ∈ validIds))).map
        edgeToRaw),
    grn := some
      { species := some ((buildSpeciesData s.nodes s.grn.species).map
          (fun sp => ⟨some sp.name, sp.delta⟩)),
        input_species_names := some s.grn.input_species_names,
        genes := some s.grn.genes } }

/-- The species-restoring loop of `load_network`.  Each iteration reads
`species["name"]` (KeyError when absent) and then the document's
`input_species_names` list (KeyError when absent — so a document without that
key fails only if the species list is non-empty); input names are restored
with `add_input_species`, the rest with `add_species` and the default delta
`0.1`.  The partially built GRN is kept on failure. -/
def loadSpeciesLoop (l : List RawSpecies) (inputNames : Option (List String))
    (g : GRN) : GRN × Bool :=
  match l with
  | [] => (g, true)
  | sp :: rest =>
    match sp.name with
    | none => (g, false)
    | some nm =>
      match inputNames with
      | none => (g, false)
      | some ins =>
        let g1 := if nm ∈ ins then g.add_input_species nm
                  else g.add_species nm (sp.delta.getD (1/10))
        loadSpeciesLoop rest (some ins) g1

/-- The node-restoring loop of `load_network`.  `species_name`, `x`, `y` are
required (in that evaluation order); `add_node` registers the node under a
fresh uuid; then `alpha` is patched, a document `node_id` (or another fresh
uuid) is assigned to the node object in place — the dict entry keeps its key
— and the node is recorded in `node_map` under the assigned id. -/
def loadNodesLoop (l : List RawNodeData) (s : NetworkView)
    (m : List (String × NetworkNode)) :
    NetworkView × List (String × NetworkNode) × Bool :=
  match l with
  | [] => (s, m, true)
  | nd :: rest =>
    match nd.species_name with
    | none => (s, m, false)
    | some sp =>
      match nd.x with
      | none => (s, m, false)
      | some x =>
        match nd.y with
        | none => (s, m, false)
        | some y =>
          let res := s.add_node sp (nd.logic_type.getD "and") x y nd.display_name
          let s1 := res.1
          let node1 := { res.2 with alpha := nd.alpha.getD 10 }
          let idAndState : String × NetworkView :=
            match nd.node_id with
            | some i => (i, s1)
            | none => (uuidString s1.counter, { s1 with counter := s1.counter + 1 })
          let node2 := { node1 with node_id := idAndState.1 }
          let s2 := { idAndState.2 with
            nodes := idAndState.2.nodes.map
              (fun kv => if kv.2.ref = node2.ref then (kv.1, node2) else kv) }
          loadNodesLoop rest s2 (dictInsert m idAndState.1 node2)

/-- The pair an edge record resolves to through `node_map` (`None` get on a
missing key or id): the `node_id` fields of the two mapped nodes. -/
def resolvedPair (m : List (String × NetworkNode)) (r : RawEdgeData) :
    Option (String × String) :=
  match r.source_id.bind (dictGet m), r.target_id.bind (dictGet m) with
  | some sn, some tn => some (sn.node_id, tn.node_id)
  | _, _ => none

/-- The ordered endpoint pair of a visual edge. -/
def pairOf (e : NetworkEdge) : String × String :=
  (e.source_node.node_id, e.target_node.node_id)

/-- The edge-restoring loop of `load_network`: records whose source or
target id does not resolve are silently skipped; a resolving record whose
pair was already seen is skipped (duplicate suppression); otherwise
`edge_data["type"]` is required and must be a valid `EdgeType` value
(KeyError / ValueError abort the load, keeping the edges built so far). -/
def loadEdgesLoop (l : List RawEdgeData) (s : NetworkView)
    (m : List (String × NetworkNode)) (seen : List (String × String)) :
    NetworkView × Bool :=
  match l with
  | [] => (s, true)
  | r :: rest =>
    match r.source_id.bind (dictGet m), r.target_id.bind (dictGet m) with
    | some sn, some tn =>
      if (sn.node_id, tn.node_id) ∈ seen then loadEdgesLoop rest s m seen
      else
        match r.type with
        | none => (s, false)
        | some tv =>
          match EdgeType.ofValue tv with
          | none => (s, false)
          | some et =>
            let edge : NetworkEdge :=
              { ref := s.counter, source_node := sn, target_node := tn,
                edge_type := et, kd := r.kd.getD 5, n := r.n.getD 2 }
            loadEdgesLoop rest
              { s with edges := s.edges ++ [edge], counter := s.counter + 1 }
              m (seen ++ [(sn.node_id, tn.node_id)])
    | _, _ => loadEdgesLoop rest s m seen

/-- `MainWindow.load_network` after the file dialog: `none` models malformed
JSON (`json.load` raises before anything is touched).  On a parsed document
the view is cleared FIRST; every later missing required key aborts the load
by exception, leaving the cleared and partially rebuilt state behind.  The
`Bool` reports success. -/
def MainWindow.load_network (input : Option NetworkData) (s : NetworkView) :
    NetworkView × Bool :=
  match input with
  | none => (s, false)
  | some nd =>
    let s0 := s.clear
    match nd.grn with
    | none => (s0, false)
    | some grnd =>
      match grnd.species with
      | none => (s0, false)
      | some specList =>
        let resg := loadSpeciesLoop specList grnd.input_species_names s0.grn
        let s1 := { s0 with grn := resg.1 }
        if ¬ resg.2 then (s1, false)
        else
          match nd.nodes with
          | none => (s1, false)
          | some nodeList =>
            let resn := loadNodesLoop nodeList s1 []
            if ¬ resn.2.2 then (resn.1, false)
            else
              match nd.edges with
              | none => (resn.1, false)
              | some edgeList =>
                let rese := loadEdgesLoop edgeList resn.1 resn.2.1 []
                if ¬ rese.2 then (rese.1, false)
                else
                  match grnd.genes with
                  | none => (rese.1, false)
                  | some genes =>
                    ({ rese.1 with grn := { rese.1.grn with genes := genes } }, true)

/-! ### Generated-id freshness -/

/-- The generated uuid supply is injective. -/
theorem uuidString_inj {a b : Nat} (h : uuidString a = uuidString b) : a = b := by
  have hd := congrArg (fun s => s.data.length) h
  simpa [uuidString, String.data_append] using hd

/-! ### Concrete states and documents used by the claim theorems -/

/-- First of two nodes sharing species `"X"`. -/
def cNodeX1 : NetworkNode := ⟨0, "X", "n1", "id1", 0, 0, "and", 10⟩

/-- Second of two nodes sharing species `"X"`. -/
def cNodeX2 : NetworkNode := ⟨1, "X", "n2", "id2", 30, 0, "and", 10⟩

/-- A reachable state with two nodes referencing the input species `"X"`. -/
def stTwoNodesX : NetworkView :=
  { grn := ⟨[⟨"X", none⟩], ["X"], []⟩,
    nodes := [("id1", cNodeX1), ("id2", cNodeX2)], edges := [],
    mode := .NORMAL, source_node := none, temp_line := false,
    edge_type := .ACTIVATION, counter := 2 }

/-- A reachable state holding one declared species and no nodes (reached by
`add_species_dialog` alone). -/
def stSoloSpecies : NetworkView :=
  { grn := ⟨[⟨"X", some 1⟩], [], []⟩, nodes := [], edges := [],
    mode := .NORMAL, source_node := none, temp_line := false,
    edge_type := .ACTIVATION, counter := 0 }

/-- A legacy document: the node record is keyed by the species name (`name`)
and carries no `node_id`/`species_name`. -/
def docLegacy : NetworkData :=
  { nodes := some [{ node_id := none, species_name := none, display_name := none,
                     x := some 0, y := some 0, logic_type := none, alpha := none,
                     name := some "X" }],
    edges := some [],
    grn := some { species := some [⟨some "X", some 1⟩],
                  input_species_names := some [], genes := some [] } }

/-- A syntactically valid JSON document with the required `grn` object
missing. -/
def docNoGrn : NetworkData := ⟨some [], some [], none⟩

/-- A current-schema document whose single node carries the explicit
node id `"a"`. -/
def doc10 : NetworkData :=
  { nodes := some [{ node_id := some "a", species_name := some "X",
                     display_name := some "n", x := some 0, y := some 0,
                     logic_type := some "and", alpha := some 10, name := none }],
    edges := some [],
    grn := some { species := some [⟨some "X", some 1⟩],
                  input_species_names := some [], genes := some [] } }

/-- The node produced by loading `doc10` into a fresh view (its `pos` is the
document coordinate minus the radius). -/
def cLoadedNode10 : NetworkNode :=
  ⟨0, "X", "n", "a", 0 - nodeRadius, 0 - nodeRadius, "and", 10⟩

/-- Node `A` of the two-regulator scenario. -/
def cNodeA : NetworkNode := ⟨0, "A", "A", "ua", 0, 0, "and", 10⟩

/-- Node `B` of the two-regulator scenario. -/
def cNodeB : NetworkNode := ⟨1, "B", "B", "ub", 0, 0, "and", 10⟩

/-- Node `C` of the two-regulator scenario. -/
def cNodeC : NetworkNode := ⟨2, "C", "C", "uc", 0, 0, "and", 10⟩

/-- The visual edge `A → C`. -/
def cEdgeAC : NetworkEdge := ⟨3, cNodeA, cNodeC, .ACTIVATION, 5, 2⟩

/-- The visual edge `B → C`. -/
def cEdgeBC : NetworkEdge := ⟨4, cNodeB, cNodeC, .ACTIVATION, 5, 2⟩

/-- A state in which one gene for product `C` has the two regulators `A` and
`B`, with matching edges `A → C` and `B → C`. -/
def st5 : NetworkView :=
  { grn := ⟨[⟨"A", some 1⟩, ⟨"B", some 1⟩, ⟨"C", some 1⟩], [],
            [⟨10, [⟨"A", 1, 5, 2⟩, ⟨"B", 1, 5, 2⟩], [⟨"C"⟩], "and"⟩]⟩,
    nodes := [("ua", cNodeA), ("ub", cNodeB), ("uc", cNodeC)],
    edges := [cEdgeAC, cEdgeBC],
    mode := .NORMAL, source_node := none, temp_line := false,
    edge_type := .ACTIVATION, counter := 5 }

/-- A state in edge-drawing mode with pending source `A`. -/
def st7 : NetworkView :=
  { grn := ⟨[⟨"A", some 1⟩, ⟨"B", some 1⟩], [], []⟩,
    nodes := [("ua", cNodeA), ("ub", cNodeB)], edges := [],
    mode := .ADDING_EDGE, source_node := some cNodeA, temp_line := true,
    edge_type := .ACTIVATION, counter := 5 }

/-! ### C1 -/

/-- C1: the claim says `deleteNode` keeps the species while another live
node still references it.  The code removes it unconditionally: in a state
where nodes `n1` and `n2` both reference the input species `"X"`, deleting
`n1` erases `"X"` from both the species list and the input set although `n2`
(still present in the node map) references it. -/
theorem C1_delete_node_removes_shared_species :
    (stTwoNodesX.delete_node cNodeX1).2 = true ∧
    (stTwoNodesX.delete_node cNodeX1).1.grn.species = [] ∧
    (stTwoNodesX.delete_node cNodeX1).1.grn.input_species_names = [] ∧
    dictGet (stTwoNodesX.delete_node cNodeX1).1.nodes "id2" = some cNodeX2 ∧
    cNodeX2.species_name = "X" := by decide

/-! ### C10 -/

/-- C10: the claim says the node map stays keyed by each node's `node_id`
after a load.  Loading a document that supplies `node_id = "a"` leaves the
dict entry under the fresh uuid generated by `add_node` while the node's
`node_id` field is `"a"`; the subsequent `del self.nodes[node.node_id]`
in `delete_node` therefore raises `KeyError` (the `false` flag). -/
theorem C10_node_map_key_mismatch :
    (MainWindow.load_network (some doc10) NetworkView.init).2 = true ∧
    (MainWindow.load_network (some doc10) NetworkView.init).1.nodes =
      [(uuidString 0, cLoadedNode10)] ∧
    cLoadedNode10.node_id = "a" ∧
    uuidString 0 ≠ "a" ∧
    ((MainWindow.load_network (some doc10) NetworkView.init).1.delete_node
        cLoadedNode10).2 = false :=
  ⟨by decide, rfl, rfl, by decide, by decide⟩

/-! ### Counterexample theorems for the corrected claims -/

/-- C2 counterexample: the reachable state `stSoloSpecies` (one declared
species, no nodes) does not round-trip — the saved document drops the
species, so the reloaded model's species list is not a permutation of the
original one. -/
theorem C2_roundtrip_counterexample :
    (MainWindow.load_network (some (MainWindow.save_network stSoloSpecies))
        stSoloSpecies).2 = true ∧
    ¬ (MainWindow.load_network (some (MainWindow.save_network stSoloSpecies))
        stSoloSpecies).1.grn.species.Perm stSoloSpecies.grn.species := by decide

/-- C3 counterexample: a legacy document keying its node record by species
name (`name` present, no `node_id`/`species_name`) is rejected — the loader
fails on the required `species_name` key, creating no nodes. -/
theorem C3_legacy_rejected_counterexample :
    (∀ r ∈ docLegacy.nodes.getD [], r.name.isSome ∧ r.node_id = none) ∧
    (MainWindow.load_network (some docLegacy) NetworkView.init).2 = false ∧
    (MainWindow.load_network (some docLegacy) NetworkView.init).1.nodes = [] := by
  decide

/-- C4 counterexample: a document that parses as JSON but lacks the required
`grn` object makes the load fail AFTER the in-memory state was cleared: the
state is not left as it was. -/
theorem C4_not_all_or_nothing_counterexample :
    (MainWindow.load_network (some docNoGrn) stSoloSpecies).2 = false ∧
    (MainWindow.load_network (some docNoGrn) stSoloSpecies).1 ≠ stSoloSpecies := by
  decide

/-- C5 counterexample: deleting edge `A → C` while the matching gene has the
two regulators `A` and `B` removes the whole gene — the claim instead
requires the gene to survive with the single regulator `B`. -/
theorem C5_delete_edge_counterexample :
    st5.grn.genes.map (fun g => g.regulators.length) = [2] ∧
    (NetworkEdge.delete_edge st5 cEdgeAC).grn.genes = [] := by decide

/-- C6 counterexample: serializing a state whose model holds species `"X"`
but no node referencing it emits an empty species list — the species present
in the model but referenced by no node does NOT appear in the document. -/
theorem C6_serialize_counterexample :
    stSoloSpecies.grn.species = [⟨"X", some 1⟩] ∧
    (MainWindow.save_network stSoloSpecies).grn =
      some ⟨some [], some [], some []⟩ := by decide

/-- C7 counterexample: committing an edge (pointer-up over node `B` with
pending source `A`) appends the edge but assigns `mode = NORMAL` — edge mode
does not remain active after a successful commit. -/
theorem C7_commit_exits_edge_mode_counterexample :
    st7.mode = EditMode.ADDING_EDGE ∧
    (st7.mouseReleaseEvent [cNodeB]).edges.length = st7.edges.length + 1 ∧
    (st7.mouseReleaseEvent [cNodeB]).mode = EditMode.NORMAL := by decide

/-! ### C4 (amended): all-or-nothing only up to JSON parsing -/

/-- C4 (amended): the load is all-or-nothing only for malformed JSON — then
the state is returned untouched.  Once the document parses, the view is
cleared before any validation, so a document missing the required `grn`
object fails and leaves behind the cleared state instead of the original
one. -/
theorem C4_load_failure_amended (s : NetworkView) (nd : NetworkData)
    (h : nd.grn = none) :
    MainWindow.load_network none s = (s, false) ∧
    MainWindow.load_network (some nd) s = (s.clear, false) := by
  refine ⟨rfl, ?_⟩
  simp [MainWindow.load_network, h]

/-- Witness for `C4_load_failure_amended` at the concrete document
`docNoGrn` and state `stSoloSpecies`. -/
theorem C4_load_failure_amended_witness :
    docNoGrn.grn = none ∧
    (MainWindow.load_network none stSoloSpecies = (stSoloSpecies, false) ∧
     MainWindow.load_network (some docNoGrn) stSoloSpecies =
       (stSoloSpecies.clear, false)) :=
  ⟨rfl, C4_load_failure_amended stSoloSpecies docNoGrn rfl⟩

/-! ### C7 (amended): commit exits edge mode, abandon keeps it -/

/-- C7 (amended): with edge mode active and a pending source, a pointer-up
whose underlying items contain a node other than the source commits the edge
(appending the visual edge and its gene) but then leaves edge mode —
`mode = NORMAL` with the pending source cleared; a pointer-up anywhere else
abandons the attempt, staying in `ADDING_EDGE` with no pending source and no
model change. -/
theorem C7_release_amended (s : NetworkView) (src target : NetworkNode)
    (items : List NetworkNode)
    (hmode : s.mode = .ADDING_EDGE) (hsrc : s.source_node = some src) :
    (items.find? (fun n => ¬ n.ref = src.ref) = some target →
       (s.mouseReleaseEvent items).mode = .NORMAL ∧
       (s.mouseReleaseEvent items).source_node = none ∧
       (s.mouseReleaseEvent items).temp_line = false ∧
       (s.mouseReleaseEvent items).edges =
         s.edges ++ [⟨s.counter, src, target, s.edge_type, 5, 2⟩] ∧
       (s.mouseReleaseEvent items).grn.genes =
         s.grn.genes ++ [⟨target.alpha, [⟨src.species_name, s.edge_type.value, 5, 2⟩],
                          [⟨target.species_name⟩], target.logic_type⟩]) ∧
    (items.find? (fun n => ¬ n.ref = src.ref) = none →
       (s.mouseReleaseEvent items).mode = .ADDING_EDGE ∧
       (s.mouseReleaseEvent items).source_node = none ∧
       (s.mouseReleaseEvent items).temp_line = false ∧
       (s.mouseReleaseEvent items).edges = s.edges ∧
       (s.mouseReleaseEvent items).grn = s.grn) := by
  constructor
  · intro hfind
    have hne : target.ref ≠ src.ref := by
      have := List.find?_some hfind
      simpa using this
    simp only [decide_not] at hfind
    simp [NetworkView.mouseReleaseEvent, hsrc, hfind, NetworkView.complete_edge,
          Ne.symm hne, NetworkView.setMode, hmode, GRN.add_gene]
  · intro hfind
    simp only [decide_not] at hfind
    simp [NetworkView.mouseReleaseEvent, hsrc, hfind, NetworkView.setMode, hmode]

/-- Witness for `C7_release_amended`: the state `st7` (pending source `A`)
with pointer-up over `B`, and the same state with no node under the
cursor. -/
theorem C7_release_amended_witness :
    (st7.mode = .ADDING_EDGE ∧ st7.source_node = some cNodeA) ∧
    (([cNodeB].find? (fun n => ¬ n.ref = cNodeA.ref) = some cNodeB →
       (st7.mouseReleaseEvent [cNodeB]).mode = .NORMAL ∧
       (st7.mouseReleaseEvent [cNodeB]).source_node = none ∧
       (st7.mouseReleaseEvent [cNodeB]).temp_line = false ∧
       (st7.mouseReleaseEvent [cNodeB]).edges =
         st7.edges ++ [⟨st7.counter, cNodeA, cNodeB, st7.edge_type, 5, 2⟩] ∧
       (st7.mouseReleaseEvent [cNodeB]).grn.genes =
         st7.grn.genes ++ [⟨cNodeB.alpha, [⟨cNodeA.species_name, st7.edge_type.value, 5, 2⟩],
                            [⟨cNodeB.species_name⟩], cNodeB.logic_type⟩]) ∧
     ([cNodeB].find? (fun n => ¬ n.ref = cNodeA.ref) = none →
       (st7.mouseReleaseEvent [cNodeB]).mode = .ADDING_EDGE ∧
       (st7.mouseReleaseEvent [cNodeB]).source_node = none ∧
       (st7.mouseReleaseEvent [cNodeB]).temp_line = false ∧
       (st7.mouseReleaseEvent [cNodeB]).edges = st7.edges ∧
       (st7.mouseReleaseEvent [cNodeB]).grn = st7.grn)) :=
  ⟨⟨rfl, rfl⟩, C7_release_amended st7 cNodeA cNodeB [cNodeB] rfl rfl⟩

/-! ### Lemmas about the rebuilt species dict of `save_network` -/

/-- Every record produced by the species-rebuilding fold either was in the
accumulator or is a GRN record referenced by one of the iterated nodes. -/
theorem speciesFold_mem (nodes : List (String × NetworkNode)) (gs : List Species) :
    ∀ acc, ∀ sp ∈ nodes.foldl (speciesStep gs) acc,
      sp ∈ acc ∨ (sp ∈ gs ∧ ∃ kv ∈ nodes, kv.2.species_name = sp.name) := by
  induction nodes with
  | nil => intro acc sp hsp; exact Or.inl hsp
  | cons kv rest ih =>
    intro acc sp hsp
    rcases ih (speciesStep gs acc kv) sp hsp with hacc | ⟨hgs, kv1, hkv1, hname⟩
    · unfold speciesStep at hacc
      split at hacc
      · exact Or.inl hacc
      · rename_i hfind
        split at hacc
        · rename_i info hinfo
          rcases List.mem_append.mp hacc with h1 | h2
          · exact Or.inl h1
          · have hinfomem := List.mem_of_find?_eq_some hinfo
            have hinfoname : info.name = kv.2.species_name := by
              have := List.find?_some hinfo
              simpa using this
            have hspinfo : sp = info := by simpa using h2
            exact Or.inr ⟨hspinfo ▸ hinfomem,
              ⟨kv, List.mem_cons_self kv rest, by rw [hspinfo, hinfoname]⟩⟩
        · exact Or.inl hacc
    · exact Or.inr ⟨hgs, kv1, List.mem_cons_of_mem kv hkv1, hname⟩

/-- Names present in the accumulator survive the species-rebuilding fold. -/
theorem speciesFold_names_mono (nodes : List (String × NetworkNode)) (gs : List Species) :
    ∀ acc nm, nm ∈ acc.map (·.name) →
      nm ∈ (nodes.foldl (speciesStep gs) acc).map (·.name) := by
  induction nodes with
  | nil => intro acc nm h; exact h
  | cons kv rest ih =>
    intro acc nm h
    refine ih (speciesStep gs acc kv) nm ?_
    unfold speciesStep
    split
    · exact h
    · split
      · simpa using Or.inl h
      · exact h

/-- A species name referenced by an iterated node and found in the GRN list
appears among the names of the rebuilt species dict. -/
theorem speciesFold_names_cover (nodes : List (String × NetworkNode)) (gs : List Species) :
    ∀ acc nm, (∃ kv ∈ nodes, kv.2.species_name = nm) →
      (gs.find? (fun sp => sp.name = nm)).isSome →
      nm ∈ (nodes.foldl (speciesStep gs) acc).map (·.name) := by
  induction nodes with
  | nil =>
    intro acc nm h hfind
    rcases h with ⟨kv, hkv, _⟩
    exact absurd hkv (List.not_mem_nil kv)
  | cons kv rest ih =>
    intro acc nm h hfind
    rcases h with ⟨kv1, hkv1, hname⟩
    rcases List.mem_cons.mp hkv1 with rfl | hrest
    · subst hname
      by_cases hany : acc.any (fun sp => sp.name = kv1.2.species_name)
      · have hin : kv1.2.species_name ∈ acc.map (·.name) := by
          rcases List.any_eq_true.mp hany with ⟨sp, hsp, heq⟩
          exact List.mem_map.mpr ⟨sp, hsp, by simpa using heq⟩
        have : kv1.2.species_name ∈ (speciesStep gs acc kv1).map (·.name) := by
          unfold speciesStep
          rw [if_pos hany]
          exact hin
        exact speciesFold_names_mono rest gs _ _ this
      · rcases Option.isSome_iff_exists.mp hfind with ⟨info, hinfo⟩
        have hinfoname : info.name = kv1.2.species_name := by
          have := List.find?_some hinfo
          simpa using this
        have : kv1.2.species_name ∈ (speciesStep gs acc kv1).map (·.name) := by
          unfold speciesStep
          rw [if_neg hany, hinfo]
          refine List.mem_map.mpr ⟨info, ?_, hinfoname⟩
          simp
        exact speciesFold_names_mono rest gs _ _ this
    · exact ih (speciesStep gs acc kv) nm ⟨kv1, hrest, hname⟩ hfind

/-- The rebuilt species dict never repeats a name. -/
theorem speciesFold_names_nodup (nodes : List (String × NetworkNode)) (gs : List Species) :
    ∀ acc, (acc.map (·.name)).Nodup →
      ((nodes.foldl (speciesStep gs) acc).map (·.name)).Nodup := by
  induction nodes with
  | nil => intro acc h; exact h
  | cons kv rest ih =>
    intro acc h
    refine ih (speciesStep gs acc kv) ?_
    unfold speciesStep
    split
    · exact h
    · rename_i hany
      split
      · rename_i info hinfo
        have hinfoname : info.name = kv.2.species_name := by
          have := List.find?_some hinfo
          simpa using this
        have hnotin : info.name ∉ acc.map (·.name) := by
          intro hcon
          rcases List.mem_map.mp hcon with ⟨sp, hsp, hspname⟩
          exact hany (List.any_eq_true.mpr ⟨sp, hsp, by simp [hspname, hinfoname]⟩)
        simpa using List.nodup_append.mpr ⟨h, by simp, by simpa using hnotin⟩
      · exact h

/-! ### C6 (amended): serialize emits inputs and genes in full, species only
from the live nodes -/

/-- C6 (amended): `save_network` emits the input list and the gene list of
the model in full, but the species list it writes is rebuilt from the live
nodes — every emitted species record is a model record referenced by at
least one node, so a species referenced by no node never appears. -/
theorem C6_serialize_amended (s : NetworkView) :
    ∃ rg, (MainWindow.save_network s).grn = some rg ∧
      rg.input_species_names = some s.grn.input_species_names ∧
      rg.genes = some s.grn.genes ∧
      ∃ sl, rg.species = some sl ∧
        ∀ rsp ∈ sl, ∃ nm, rsp.name = some nm ∧
          (∃ kv ∈ s.nodes, kv.2.species_name = nm) ∧
          (⟨nm, rsp.delta⟩ : Species) ∈ s.grn.species := by
  refine ⟨_, rfl, rfl, rfl, _, rfl, ?_⟩
  intro rsp hrsp
  rcases List.mem_map.mp hrsp with ⟨sp, hsp, hspeq⟩
  rcases speciesFold_mem s.nodes s.grn.species [] sp hsp with hacc | ⟨hgs, kv, hkv, hname⟩
  · exact absurd hacc (List.not_mem_nil sp)
  · refine ⟨sp.name, ?_, ⟨kv, hkv, hname⟩, ?_⟩
    · rw [← hspeq]
    · have : (⟨sp.name, rsp.delta⟩ : Species) = sp := by
        rw [← hspeq]
      rw [this]
      exact hgs

/-! ### C5 (amended): delete_edge removes whole matching genes -/

/-- Removing the unique edge with a given object id shortens the list by one
and leaves no edge with that id. -/
theorem eraseP_unique_ref (l : List NetworkEdge) (r : Nat)
    (hnodup : (l.map (·.ref)).Nodup)
    (hmem : l.any (fun e1 => e1.ref = r) = true) :
    (l.eraseP (fun e1 => e1.ref = r)).length + 1 = l.length ∧
    ∀ e1 ∈ l.eraseP (fun e1 => e1.ref = r), e1.ref ≠ r := by
  induction l with
  | nil => simp at hmem
  | cons h t ih =>
    by_cases hh : h.ref = r
    · have herase : (h :: t).eraseP (fun e1 => e1.ref = r) = t := by
        simp [List.eraseP_cons, hh]
      rw [herase]
      refine ⟨by simp, ?_⟩
      intro e1 he1 hcon
      have : h.ref ∈ t.map (·.ref) := by
        rw [hh, ← hcon]
        exact List.mem_map.mpr ⟨e1, he1, rfl⟩
      exact (List.nodup_cons.mp hnodup).1 this
    · have herase : (h :: t).eraseP (fun e1 => e1.ref = r) =
          h :: t.eraseP (fun e1 => e1.ref = r) := by
        simp [List.eraseP_cons, hh]
      have hmem1 : t.any (fun e1 => e1.ref = r) = true := by
        rcases List.any_eq_true.mp hmem with ⟨e1, he1, heq⟩
        rcases List.mem_cons.mp he1 with rfl | ht
        · exact absurd (by simpa using heq) hh
        · exact List.any_eq_true.mpr ⟨e1, ht, heq⟩
      rcases ih (List.nodup_cons.mp hnodup).2 hmem1 with ⟨hlen, hall⟩
      rw [herase]
      refine ⟨by simpa using hlen, ?_⟩
      intro e1 he1
      rcases List.mem_cons.mp he1 with rfl | ht
      · exact hh
      · exact hall e1 ht

/-- C5 (amended): `delete_edge` removes the edge, and removes from the model
EVERY gene that lists the edge's source species among its regulators and the
edge's target species among its products — regardless of how many regulators
the gene has (a multi-regulator gene is deleted whole, not trimmed to its
remaining regulators). -/
theorem C5_delete_edge_amended (s : NetworkView) (e : NetworkEdge)
    (hmem : s.edges.any (fun e1 => e1.ref = e.ref) = true)
    (hnodup : (s.edges.map (·.ref)).Nodup) :
    (NetworkEdge.delete_edge s e).edges.length + 1 = s.edges.length ∧
    (∀ e1 ∈ (NetworkEdge.delete_edge s e).edges, e1.ref ≠ e.ref) ∧
    ∀ g, g ∈ (NetworkEdge.delete_edge s e).grn.genes ↔
      (g ∈ s.grn.genes ∧
       ¬ (g.regulators.any (fun r => r.name = e.source_node.species_name) = true ∧
          g.products.any (fun p => p.name = e.target_node.species_name) = true)) := by
  have hbranch := eraseP_unique_ref s.edges e.ref hnodup hmem
  unfold NetworkEdge.delete_edge
  rw [if_pos hmem]
  refine ⟨hbranch.1, hbranch.2, ?_⟩
  intro g
  simp [List.mem_filter]

/-- Witness for `C5_delete_edge_amended` at the two-regulator scenario
state. -/
theorem C5_delete_edge_amended_witness :
    (st5.edges.any (fun e1 => e1.ref = cEdgeAC.ref) = true ∧
     (st5.edges.map (·.ref)).Nodup) ∧
    ((NetworkEdge.delete_edge st5 cEdgeAC).edges.length + 1 = st5.edges.length ∧
     (∀ e1 ∈ (NetworkEdge.delete_edge st5 cEdgeAC).edges, e1.ref ≠ cEdgeAC.ref) ∧
     ∀ g, g ∈ (NetworkEdge.delete_edge st5 cEdgeAC).grn.genes ↔
       (g ∈ st5.grn.genes ∧
        ¬ (g.regulators.any (fun r => r.name = cEdgeAC.source_node.species_name) = true ∧
           g.products.any (fun p => p.name = cEdgeAC.target_node.species_name) = true))) :=
  ⟨⟨by decide, by decide⟩,
   C5_delete_edge_amended st5 cEdgeAC (by decide) (by decide)⟩
/-! ### C8: input/delta exclusivity -/

/-- The input/delta exclusivity invariant of §3: a species record carries no
`delta` exactly when its name is in the input set. -/
def inputDeltaInv (g : GRN) : Prop :=
  ∀ sp ∈ g.species, (sp.name ∈ g.input_species_names ↔ sp.delta = none)

instance (g : GRN) : Decidable (inputDeltaInv g) := by
  unfold inputDeltaInv
  infer_instance

/-- Unfolding equation of `modifyFirstSpecies` when the head matches. -/
theorem modifyFirstSpecies_cons_pos (h : Species) (t : List Species) (name : String)
    (f : Species → Species) (hh : h.name = name) :
    modifyFirstSpecies (h :: t) name f = f h :: t := by
  simp only [modifyFirstSpecies]
  rw [if_pos hh]

/-- Unfolding equation of `modifyFirstSpecies` when the head does not match. -/
theorem modifyFirstSpecies_cons_neg (h : Species) (t : List Species) (name : String)
    (f : Species → Species) (hh : ¬ h.name = name) :
    modifyFirstSpecies (h :: t) name f = h :: modifyFirstSpecies t name f := by
  simp only [modifyFirstSpecies]
  rw [if_neg hh]

/-- On a list with pairwise distinct names, every record of
`modifyFirstSpecies l name f` is either an original record whose name is not
`name`, or the image under `f` of an original record named `name`. -/
theorem modifyFirstSpecies_mem (l : List Species) (name : String)
    (f : Species → Species) (hnd : (l.map (·.name)).Nodup) :
    ∀ sp1 ∈ modifyFirstSpecies l name f,
      (sp1 ∈ l ∧ sp1.name ≠ name) ∨ (∃ sp ∈ l, sp.name = name ∧ sp1 = f sp) := by
  induction l with
  | nil => intro sp1 h; exact absurd h (List.not_mem_nil sp1)
  | cons h t ih =>
    intro sp1 hsp1
    have hnd1 : (∀ x ∈ t, ¬ x.name = h.name) ∧ (t.map (·.name)).Nodup := by
      simpa using hnd
    by_cases hh : h.name = name
    · rw [modifyFirstSpecies_cons_pos h t name f hh] at hsp1
      rcases List.mem_cons.mp hsp1 with rfl | ht
      · exact Or.inr ⟨h, List.mem_cons_self h t, hh, rfl⟩
      · refine Or.inl ⟨List.mem_cons_of_mem h ht, ?_⟩
        intro hcon
        exact hnd1.1 sp1 ht (by rw [hcon, hh])
    · rw [modifyFirstSpecies_cons_neg h t name f hh] at hsp1
      rcases List.mem_cons.mp hsp1 with rfl | ht
      · exact Or.inl ⟨List.mem_cons_self sp1 t, hh⟩
      · rcases ih hnd1.2 sp1 ht with ⟨hmem, hne⟩ | ⟨sp, hsp, hspname, hspf⟩
        · exact Or.inl ⟨List.mem_cons_of_mem h hmem, hne⟩
        · exact Or.inr ⟨sp, List.mem_cons_of_mem h hsp, hspname, hspf⟩

/-- C8: the two species-retyping operations — `toggle_node_type` and
`save_species_parameters` — preserve input/delta exclusivity: converting to
an input removes `delta` and adds the name to the input set, converting to a
regular species removes the name from the input set and stores a `delta`. -/
theorem C8_input_delta_exclusivity (s : NetworkView) (node : NetworkNode) (d : Rat)
    (name2 : String) (t : Bool) (d2 : Rat)
    (hinv : inputDeltaInv s.grn)
    (hspn : (s.grn.species.map (·.name)).Nodup)
    (hinn : s.grn.input_species_names.Nodup) :
    inputDeltaInv (s.toggle_node_type node d).grn ∧
    inputDeltaInv (ParameterPanel.save_species_parameters s name2 t d2).grn := by
  constructor
  · unfold NetworkView.toggle_node_type
    by_cases hcur : node.species_name ∈ s.grn.input_species_names
    · rw [if_pos hcur]
      intro sp1 hsp1
      rcases modifyFirstSpecies_mem s.grn.species node.species_name _ hspn sp1 hsp1 with
        ⟨hmem, hne⟩ | ⟨sp, hsp, hspname, rfl⟩
      · rw [hinn.mem_erase_iff]
        constructor
        · intro h1
          exact (hinv sp1 hmem).mp h1.2
        · intro h1
          exact ⟨hne, (hinv sp1 hmem).mpr h1⟩
      · simp [hinn.mem_erase_iff, hspname]
    · rw [if_neg hcur]
      intro sp1 hsp1
      rcases modifyFirstSpecies_mem s.grn.species node.species_name _ hspn sp1 hsp1 with
        ⟨hmem, hne⟩ | ⟨sp, hsp, hspname, rfl⟩
      · simp only [List.mem_append, List.mem_singleton]
        constructor
        · intro h1
          rcases h1 with h1 | h1
          · exact (hinv sp1 hmem).mp h1
          · exact absurd h1 hne
        · intro h1
          exact Or.inl ((hinv sp1 hmem).mpr h1)
      · simp [hspname]
  · unfold ParameterPanel.save_species_parameters
    by_cases hempty : name2 = ""
    · rw [if_pos hempty]
      exact hinv
    · rw [if_neg hempty]
      by_cases hcur : name2 ∈ s.grn.input_species_names
      · by_cases ht : t
        · rw [if_neg (by simp [hcur, ht])]
          rw [if_neg (by simp [ht])]
          exact hinv
        · rw [if_pos (by simp [hcur, ht]), if_neg (by simp [ht])]
          intro sp1 hsp1
          rcases modifyFirstSpecies_mem s.grn.species name2 _ hspn sp1 hsp1 with
            ⟨hmem, hne⟩ | ⟨sp, hsp, hspname, rfl⟩
          · rw [hinn.mem_erase_iff]
            constructor
            · intro h1
              exact (hinv sp1 hmem).mp h1.2
            · intro h1
              exact ⟨hne, (hinv sp1 hmem).mpr h1⟩
          · simp [hinn.mem_erase_iff, hspname]
      · by_cases ht : t
        · rw [if_pos (by simp [hcur, ht]), if_pos (by simp [ht])]
          intro sp1 hsp1
          rcases List.mem_map.mp hsp1 with ⟨sp, hsp, hspeq⟩
          by_cases hcond : sp.name = name2 ∧ sp.delta.isSome
          · rw [if_pos hcond] at hspeq
            subst hspeq
            simp [hcond.1]
          · rw [if_neg hcond] at hspeq
            subst hspeq
            by_cases hname : sp.name = name2
            · have hdelta : sp.delta = none := by
                by_cases hs : sp.delta.isSome
                · exact absurd ⟨hname, hs⟩ hcond
                · exact Option.not_isSome_iff_eq_none.mp hs
              simp [hname, hdelta]
            · simp only [List.mem_append, List.mem_singleton]
              constructor
              · intro h1
                rcases h1 with h1 | h1
                · exact (hinv sp hsp).mp h1
                · exact absurd h1 hname
              · intro h1
                exact Or.inl ((hinv sp hsp).mpr h1)
        · rw [if_neg (by simp [hcur, ht]), if_pos (by simp [ht])]
          intro sp1 hsp1
          rcases modifyFirstSpecies_mem s.grn.species name2 _ hspn sp1 hsp1 with
            ⟨hmem, hne⟩ | ⟨sp, hsp, hspname, rfl⟩
          · exact hinv sp1 hmem
          · constructor
            · intro h1
              have : sp.name ∈ s.grn.input_species_names := by
                simpa [hspname] using h1
              exact absurd (hspname ▸ this) hcur
            · intro h1
              simp at h1

/-- Witness for `C8_input_delta_exclusivity` at the one-species state. -/
theorem C8_input_delta_exclusivity_witness :
    (inputDeltaInv stSoloSpecies.grn ∧
     (stSoloSpecies.grn.species.map (·.name)).Nodup ∧
     stSoloSpecies.grn.input_species_names.Nodup) ∧
    (inputDeltaInv (stSoloSpecies.toggle_node_type cNodeX1 1).grn ∧
     inputDeltaInv (ParameterPanel.save_species_parameters stSoloSpecies "X" true 1).grn) :=
  ⟨⟨by decide, by decide, by decide⟩,
   C8_input_delta_exclusivity stSoloSpecies cNodeX1 1 "X" true 1
     (by decide) (by decide) (by decide)⟩

/-! ### C9: duplicate-edge suppression on load -/

/-- Recovering the enum value from a successful `EdgeType(v)` call. -/
theorem EdgeType.value_ofValue {v : Int} {et : EdgeType}
    (h : EdgeType.ofValue v = some et) : et.value = v := by
  unfold EdgeType.ofValue at h
  split at h
  · injection h with h1
    cases h1
    rfl
  · injection h with h1
    cases h1
    rfl
  · exact Option.noConfusion h

/-- `loadNodesLoop` never touches the edge list. -/
theorem loadNodesLoop_edges (l : List RawNodeData) :
    ∀ (s : NetworkView) (m : List (String × NetworkNode)),
      (loadNodesLoop l s m).1.edges = s.edges := by
  induction l with
  | nil => intro s m; rfl
  | cons nd rest ih =>
    intro s m
    simp only [loadNodesLoop]
    cases nd.species_name with
    | none => rfl
    | some sp =>
      cases nd.x with
      | none => rfl
      | some x =>
        cases nd.y with
        | none => rfl
        | some y =>
          simp only
          rw [ih]
          cases nd.node_id <;> simp [NetworkView.add_node]

/-- Every state reached by the edge-restoring loop keeps its edge pairs
pairwise distinct, provided the pairs of the incoming edges are already
recorded in `seen`. -/
theorem loadEdgesLoop_pair_nodup (l : List RawEdgeData) :
    ∀ (s : NetworkView) (m : List (String × NetworkNode)) (seen : List (String × String)),
      (s.edges.map pairOf).Nodup →
      (∀ e ∈ s.edges, pairOf e ∈ seen) →
      (((loadEdgesLoop l s m seen).1).edges.map pairOf).Nodup := by
  induction l with
  | nil =>
    intro s m seen hnd hseen
    simpa [loadEdgesLoop] using hnd
  | cons r rest ih =>
    intro s m seen hnd hseen
    simp only [loadEdgesLoop]
    cases hsrc : r.source_id.bind (dictGet m) with
    | none =>
      exact ih s m seen hnd hseen
    | some sn =>
      cases htgt : r.target_id.bind (dictGet m) with
      | none =>
        exact ih s m seen hnd hseen
      | some tn =>
        simp only
        by_cases hseenp : (sn.node_id, tn.node_id) ∈ seen
        · rw [if_pos hseenp]
          exact ih s m seen hnd hseen
        · rw [if_neg hseenp]
          cases r.type with
          | none => exact hnd
          | some tv =>
            simp only
            cases hov : EdgeType.ofValue tv with
            | none => exact hnd
            | some et =>
              simp only
              refine ih _ m _ ?_ ?_
              · simp only [List.map_append]
                refine List.nodup_append.mpr ⟨hnd, by simp, ?_⟩
                intro p hp
                simp only [List.map_cons, List.map_nil, List.mem_singleton]
                intro hcon
                rcases List.mem_map.mp hp with ⟨e1, he1, hpe1⟩
                refine hseenp ?_
                have : pairOf e1 = (sn.node_id, tn.node_id) := by
                  rw [hpe1, hcon]
                  rfl
                exact this ▸ hseen e1 he1
              · intro e1 he1
                rcases List.mem_append.mp he1 with ho | hn
                · exact List.mem_append.mpr (Or.inl (hseen e1 ho))
                · have : e1 = ⟨s.counter, sn, tn, et, r.kd.getD 5, r.n.getD 2⟩ := by
                    simpa using hn
                  refine List.mem_append.mpr (Or.inr ?_)
                  rw [this]
                  simp [pairOf]

/-- Every edge produced by the edge-restoring loop (beyond the incoming
ones) corresponds to the FIRST document record that resolves to its ordered
endpoint pair, carrying that record's type/kd/n. -/
theorem loadEdgesLoop_first_occurrence (l : List RawEdgeData) :
    ∀ (s : NetworkView) (m : List (String × NetworkNode)) (seen : List (String × String)),
      (∀ e ∈ s.edges, pairOf e ∈ seen) →
      ∀ e ∈ (loadEdgesLoop l s m seen).1.edges,
        e ∈ s.edges ∨
        (pairOf e ∉ seen ∧
         ∃ r1, l.find? (fun r2 => resolvedPair m r2 = some (pairOf e)) = some r1 ∧
           r1.type = some e.edge_type.value ∧ e.kd = r1.kd.getD 5 ∧ e.n = r1.n.getD 2) := by
  induction l with
  | nil =>
    intro s m seen hseen e he
    exact Or.inl (by simpa [loadEdgesLoop] using he)
  | cons r rest ih =>
    intro s m seen hseen e he
    rw [loadEdgesLoop] at he
    cases hsrc : r.source_id.bind (dictGet m) with
    | none =>
      rw [hsrc] at he
      have hrp : resolvedPair m r = none := by
        unfold resolvedPair
        rw [hsrc]
      rcases ih s m seen hseen e he with ho | ⟨hnew, r1, hfind, hrest⟩
      · exact Or.inl ho
      · refine Or.inr ⟨hnew, r1, ?_, hrest⟩
        rw [← hfind]
        exact List.find?_cons_of_neg rest (by simp [hrp])
    | some sn =>
      cases htgt : r.target_id.bind (dictGet m) with
      | none =>
        rw [hsrc, htgt] at he
        have hrp : resolvedPair m r = none := by
          unfold resolvedPair
          rw [hsrc, htgt]
        rcases ih s m seen hseen e he with ho | ⟨hnew, r1, hfind, hrest⟩
        · exact Or.inl ho
        · refine Or.inr ⟨hnew, r1, ?_, hrest⟩
          rw [← hfind]
          exact List.find?_cons_of_neg rest (by simp [hrp])
      | some tn =>
        rw [hsrc, htgt] at he
        simp only at he
        have hrp : resolvedPair m r = some (sn.node_id, tn.node_id) := by
          unfold resolvedPair
          rw [hsrc, htgt]
        by_cases hseenp : (sn.node_id, tn.node_id) ∈ seen
        · rw [if_pos hseenp] at he
          rcases ih s m seen hseen e he with ho | ⟨hnew, r1, hfind, hrest⟩
          · exact Or.inl ho
          · refine Or.inr ⟨hnew, r1, ?_, hrest⟩
            rw [← hfind]
            refine List.find?_cons_of_neg rest ?_
            simp only [hrp, decide_eq_true_eq, Option.some_inj]
            intro hcon
            exact hnew (hcon ▸ hseenp)
        · rw [if_neg hseenp] at he
          cases htyp : r.type with
          | none =>
            rw [htyp] at he
            exact Or.inl he
          | some tv =>
            rw [htyp] at he
            simp only at he
            cases hov : EdgeType.ofValue tv with
            | none =>
              rw [hov] at he
              exact Or.inl he
            | some et =>
              rw [hov] at he
              simp only at he
              have hseen2 : ∀ e1 ∈ s.edges ++
                  [(⟨s.counter, sn, tn, et, r.kd.getD 5, r.n.getD 2⟩ : NetworkEdge)],
                  pairOf e1 ∈ seen ++ [(sn.node_id, tn.node_id)] := by
                intro e1 he1
                rcases List.mem_append.mp he1 with ho1 | hn1
                · exact List.mem_append.mpr (Or.inl (hseen e1 ho1))
                · have he1eq : e1 = ⟨s.counter, sn, tn, et, r.kd.getD 5, r.n.getD 2⟩ := by
                    simpa using hn1
                  refine List.mem_append.mpr (Or.inr ?_)
                  rw [he1eq]
                  simp [pairOf]
              rcases ih _ m _ hseen2 e he with ho | ⟨hnew, r1, hfind, hrest⟩
              · rcases List.mem_append.mp ho with hold | hn
                · exact Or.inl hold
                · have heq : e = ⟨s.counter, sn, tn, et, r.kd.getD 5, r.n.getD 2⟩ := by
                    simpa using hn
                  have hpe : pairOf e = (sn.node_id, tn.node_id) := by
                    rw [heq]
                    rfl
                  refine Or.inr ⟨by rw [hpe]; exact hseenp, r, ?_, ?_, ?_, ?_⟩
                  · refine List.find?_cons_of_pos rest ?_
                    simp [hrp, hpe]
                  · rw [htyp, heq]
                    simp [EdgeType.value_ofValue hov]
                  · rw [heq]
                  · rw [heq]
              · have hnseen : pairOf e ∉ seen := fun hc =>
                  hnew (List.mem_append.mpr (Or.inl hc))
                have hnp : pairOf e ≠ (sn.node_id, tn.node_id) := fun hc =>
                  hnew (List.mem_append.mpr (Or.inr (by simp [hc])))
                refine Or.inr ⟨hnseen, r1, ?_, hrest⟩
                rw [← hfind]
                refine List.find?_cons_of_neg rest ?_
                simp only [hrp, decide_eq_true_eq, Option.some_inj]
                exact fun hcon => hnp hcon.symm

/-- The edge list a finished (or failed) load ends up with is either empty
or produced by the edge-restoring loop started on an empty edge list. -/
theorem load_network_edges_shape (nd : NetworkData) (s : NetworkView) :
    ((MainWindow.load_network (some nd) s).1).edges = [] ∨
    ∃ (el : List RawEdgeData) (s2 : NetworkView) (m : List (String × NetworkNode)),
      s2.edges = [] ∧
      ((MainWindow.load_network (some nd) s).1).edges = (loadEdgesLoop el s2 m []).1.edges := by
  simp only [MainWindow.load_network]
  split
  · exact Or.inl rfl
  · split
    · exact Or.inl rfl
    · split
      · exact Or.inl rfl
      · split
        · exact Or.inl rfl
        · split
          · exact Or.inl (by rw [loadNodesLoop_edges]; rfl)
          · split
            · exact Or.inl (by rw [loadNodesLoop_edges]; rfl)
            · split
              · exact Or.inr ⟨_, _, _, by rw [loadNodesLoop_edges]; rfl, rfl⟩
              · split
                · exact Or.inr ⟨_, _, _, by rw [loadNodesLoop_edges]; rfl, rfl⟩
                · exact Or.inr ⟨_, _, _, by rw [loadNodesLoop_edges]; rfl, rfl⟩

/-- First node of the duplicate-edge witness map. -/
def cMapNode1 : NetworkNode := ⟨0, "A", "A", "na", 0, 0, "and", 10⟩

/-- Second node of the duplicate-edge witness map. -/
def cMapNode2 : NetworkNode := ⟨1, "B", "B", "nb", 0, 0, "and", 10⟩

/-- First of two edge records sharing the ordered pair `("na", "nb")`. -/
def cEdgeRec1 : RawEdgeData :=
  ⟨some "na", some "nb", some "A", some "B", some 1, some 5, some 2, none, none⟩

/-- Second (different kd/n) edge record on the same ordered pair. -/
def cEdgeRec2 : RawEdgeData :=
  ⟨some "na", some "nb", some "A", some "B", some 1, some 7, some 3, none, none⟩

/-- A document carrying two edge records for the same ordered pair. -/
def docDup : NetworkData :=
  { nodes := some
      [{ node_id := some "na", species_name := some "A", display_name := some "A",
         x := some 0, y := some 0, logic_type := some "and", alpha := some 10, name := none },
       { node_id := some "nb", species_name := some "B", display_name := some "B",
         x := some 0, y := some 0, logic_type := some "and", alpha := some 10, name := none }],
    edges := some [cEdgeRec1, cEdgeRec2],
    grn := some { species := some [⟨some "A", some 1⟩, ⟨some "B", some 1⟩],
                  input_species_names := some [], genes := some [] } }

/-! ### Characterizations of the loading loops -/

/-- The species record the loader rebuilds from a document record: an input
name gets no `delta`; any other name gets the document's `delta` or the
default `0.1`. -/
def speciesOfRaw (ins : List String) (r : RawSpecies) : Species :=
  if r.name.getD "" ∈ ins then ⟨r.name.getD "", none⟩
  else ⟨r.name.getD "", some (r.delta.getD (1/10))⟩

/-- The input names the loader accumulates from a document's species list:
the names that are members of the document's input list, in species order. -/
def inputNamesOfRaw (ins : List String) (l : List RawSpecies) : List String :=
  l.filterMap (fun r =>
    match r.name with
    | some nm => if nm ∈ ins then some nm else none
    | none => none)

/-- Closed form of the species-restoring loop on a document whose species
records all carry a name. -/
theorem loadSpeciesLoop_spec (l : List RawSpecies) :
    ∀ (ins : List String) (g : GRN),
      (∀ r ∈ l, r.name.isSome) →
      loadSpeciesLoop l (some ins) g =
        ({ species := g.species ++ l.map (speciesOfRaw ins),
           input_species_names := g.input_species_names ++ inputNamesOfRaw ins l,
           genes := g.genes }, true) := by
  induction l with
  | nil =>
    intro ins g h
    simp [loadSpeciesLoop, inputNamesOfRaw]
  | cons r rest ih =>
    intro ins g h
    obtain ⟨nm, hnm⟩ := Option.isSome_iff_exists.mp (h r (List.mem_cons_self r rest))
    rw [loadSpeciesLoop, hnm]
    simp only
    by_cases hin : nm ∈ ins
    · rw [if_pos hin, ih ins _ (fun r1 h1 => h r1 (List.mem_cons_of_mem r h1))]
      simp [GRN.add_input_species, speciesOfRaw, inputNamesOfRaw, hnm, hin,
            List.filterMap_cons]
    · rw [if_neg hin, ih ins _ (fun r1 h1 => h r1 (List.mem_cons_of_mem r h1))]
      simp [GRN.add_species, speciesOfRaw, inputNamesOfRaw, hnm, hin,
            List.filterMap_cons]

/-- `dict[k] = v` appends when the key is absent. -/
theorem dictInsert_of_not_mem (l : List (String × NetworkNode)) (k : String)
    (v : NetworkNode) (h : ¬ l.any (fun kv => kv.1 = k) = true) :
    dictInsert l k v = l ++ [(k, v)] := by
  unfold dictInsert
  rw [if_neg h]

/-- A successful `dict.get` returns the value of a stored entry. -/
theorem dictGet_mem (l : List (String × NetworkNode)) (k : String) (v : NetworkNode)
    (h : dictGet l k = some v) : ∃ kv ∈ l, kv.1 = k ∧ kv.2 = v := by
  unfold dictGet at h
  cases hf : l.find? (fun kv => kv.1 = k) with
  | none => rw [hf] at h; exact Option.noConfusion h
  | some kv =>
    rw [hf] at h
    refine ⟨kv, List.mem_of_find?_eq_some hf, ?_, ?_⟩
    · have := List.find?_some hf
      simpa using this
    · simpa using h

/-- Entries of `dict[k] = v` are old entries or carry the stored value. -/
theorem dictInsert_mem (m : List (String × NetworkNode)) (k : String) (v : NetworkNode) :
    ∀ kv ∈ dictInsert m k v, kv ∈ m ∨ kv.2 = v := by
  intro kv hkv
  unfold dictInsert at hkv
  split at hkv
  · rcases List.mem_map.mp hkv with ⟨kv1, hkv1, heq⟩
    by_cases h1 : kv1.1 = k
    · rw [if_pos h1] at heq
      exact Or.inr (by rw [← heq])
    · rw [if_neg h1] at heq
      exact Or.inl (heq ▸ hkv1)
  · rcases List.mem_append.mp hkv with h1 | h1
    · exact Or.inl h1
    · exact Or.inr (by simpa using congrArg Prod.snd (List.mem_singleton.mp h1))

/-- Existence and shape of a successful node-restoring loop: on records that
all carry `species_name`/`x`/`y` (node ids optional), starting from a state
whose node refs are below the counter and whose dict keys avoid upcoming
uuids, the loop succeeds; it appends one entry per record, never touches the
GRN, assigns each node either its record's `node_id` or a generated uuid,
and the node_map values are node values of the final state. -/
theorem loadNodesLoop_total (l : List RawNodeData) :
    ∀ (s : NetworkView) (m : List (String × NetworkNode)),
      (∀ r ∈ l, r.species_name.isSome ∧ r.x.isSome ∧ r.y.isSome) →
      (∀ kv ∈ s.nodes, kv.2.ref < s.counter) →
      (∀ kv ∈ s.nodes, ∀ k, s.counter ≤ k → kv.1 ≠ uuidString k) →
      ∃ s2 m2, loadNodesLoop l s m = (s2, m2, true) ∧
        s2.grn = s.grn ∧
        (∃ newEntries, s2.nodes = s.nodes ++ newEntries) ∧
        s2.nodes.length = s.nodes.length + l.length ∧
        s.counter ≤ s2.counter ∧
        (∀ kv ∈ s2.nodes, kv.2.ref < s2.counter) ∧
        (∀ kv ∈ s2.nodes, kv ∈ s.nodes ∨
          (∃ r ∈ l, r.node_id = some kv.2.node_id) ∨ ∃ k, kv.2.node_id = uuidString k) ∧
        (∀ kv ∈ m2, kv ∈ m ∨ kv.2 ∈ s2.nodes.map (·.2)) := by
  induction l with
  | nil =>
    intro s m h href hkey
    refine ⟨s, m, rfl, rfl, ⟨[], by simp⟩, by simp, le_refl _, href, ?_, ?_⟩
    · intro kv hkv
      exact Or.inl hkv
    · intro kv hkv
      exact Or.inl hkv
  | cons nd rest ih =>
    intro s m h href hkey
    obtain ⟨hsp, hx, hy⟩ := h nd (List.mem_cons_self nd rest)
    obtain ⟨sp, hsp⟩ := Option.isSome_iff_exists.mp hsp
    obtain ⟨x, hx⟩ := Option.isSome_iff_exists.mp hx
    obtain ⟨y, hy⟩ := Option.isSome_iff_exists.mp hy
    rw [loadNodesLoop, hsp, hx, hy]
    simp only [NetworkView.add_node]
    have hnokey : ¬ s.nodes.any (fun kv => kv.1 = uuidString s.counter) = true := by
      intro hcon
      rcases List.any_eq_true.mp hcon with ⟨kv, hkv, heq⟩
      exact hkey kv hkv s.counter (le_refl _) (by simpa using heq)
    rw [dictInsert_of_not_mem _ _ _ hnokey]
    set node0 : NetworkNode :=
      { ref := s.counter, species_name := sp,
        display_name := resolveDisplay nd.display_name sp,
        node_id := uuidString s.counter,
        posx := x - nodeRadius, posy := y - nodeRadius,
        logic_type := nd.logic_type.getD "and", alpha := 10 } with hnode0
    cases hid : nd.node_id with
    | some i =>
      simp only
      set node2 : NetworkNode := { node0 with node_id := i, alpha := nd.alpha.getD 10 }
        with hnode2
      have hmapped :
          (s.nodes ++ [(uuidString s.counter, node0)]).map
            (fun kv => if kv.2.ref = node2.ref then (kv.1, node2) else kv) =
          s.nodes ++ [(uuidString s.counter, node2)] := by
        rw [List.map_append]
        congr 1
        · refine List.map_congr_left ?_ |>.trans (List.map_id s.nodes)
          intro kv hkv
          have : kv.2.ref ≠ node2.ref := by
            have := href kv hkv
            simp only [hnode2, hnode0]
            omega
          simp [this]
        · simp [hnode2]
      rw [hmapped]
      have h2 := ih
        { grn := s.grn, nodes := s.nodes ++ [(uuidString s.counter, node2)],
          edges := s.edges, mode := s.mode, source_node := s.source_node,
          temp_line := s.temp_line, edge_type := s.edge_type, counter := s.counter + 1 }
        (dictInsert m i node2)
        (fun r1 h1 => h r1 (List.mem_cons_of_mem nd h1))
        ?_ ?_
      rotate_left
      · intro kv hkv
        show kv.2.ref < s.counter + 1
        rcases List.mem_append.mp hkv with h1 | h1
        · have := href kv h1
          omega
        · have : kv.2 = node2 := by simpa using congrArg Prod.snd (List.mem_singleton.mp h1)
          rw [this]
          simp [hnode2, hnode0]
      · intro kv hkv k hk
        have hk2 : s.counter + 1 ≤ k := hk
        rcases List.mem_append.mp hkv with h1 | h1
        · exact hkey kv h1 k (by omega)
        · have : kv.1 = uuidString s.counter := by
            simpa using congrArg Prod.fst (List.mem_singleton.mp h1)
          rw [this]
          intro hcon
          have := uuidString_inj hcon
          omega
      obtain ⟨s2, m2, heq, hgrn, ⟨newE, hnodes⟩, hlen, hcnt, href2, hids, hmap⟩ := h2
      have hcnt2 : s.counter + 1 ≤ s2.counter := hcnt
      have hlen2 : s2.nodes.length =
          (s.nodes ++ [(uuidString s.counter, node2)]).length + rest.length := hlen
      have hnodes2 : s2.nodes = (s.nodes ++ [(uuidString s.counter, node2)]) ++ newE :=
        hnodes
      refine ⟨s2, m2, heq, hgrn,
        ⟨(uuidString s.counter, node2) :: newE, by rw [hnodes2, List.append_assoc]; rfl⟩,
        by rw [hlen2]; simp [List.length_append]; omega,
        by omega, href2, ?_, ?_⟩
      · intro kv hkv
        rcases hids kv hkv with h1 | h1 | h1
        · rcases List.mem_append.mp h1 with h3 | h3
          · exact Or.inl h3
          · refine Or.inr (Or.inl ⟨nd, List.mem_cons_self nd rest, ?_⟩)
            have : kv.2 = node2 := by
              simpa using congrArg Prod.snd (List.mem_singleton.mp h3)
            rw [this, hid]
        · rcases h1 with ⟨r1, hr1, hr2⟩
          exact Or.inr (Or.inl ⟨r1, List.mem_cons_of_mem nd hr1, hr2⟩)
        · exact Or.inr (Or.inr h1)
      · intro kv hkv
        rcases hmap kv hkv with h1 | h1
        · rcases dictInsert_mem m i node2 kv h1 with h3 | h3
          · exact Or.inl h3
          · refine Or.inr ?_
            rw [h3]
            refine List.mem_map.mpr ⟨(uuidString s.counter, node2), ?_, rfl⟩
            rw [hnodes2]
            exact List.mem_append.mpr (Or.inl (List.mem_append.mpr (Or.inr (by simp))))
        · exact Or.inr h1
    | none =>
      simp only
      set node2 : NetworkNode :=
        { node0 with node_id := uuidString (s.counter + 1), alpha := nd.alpha.getD 10 }
        with hnode2
      have hmapped :
          (s.nodes ++ [(uuidString s.counter, node0)]).map
            (fun kv => if kv.2.ref = node2.ref then (kv.1, node2) else kv) =
          s.nodes ++ [(uuidString s.counter, node2)] := by
        rw [List.map_append]
        congr 1
        · refine List.map_congr_left ?_ |>.trans (List.map_id s.nodes)
          intro kv hkv
          have : kv.2.ref ≠ node2.ref := by
            have := href kv hkv
            simp only [hnode2, hnode0]
            omega
          simp [this]
        · simp [hnode2]
      rw [hmapped]
      have h2 := ih
        { grn := s.grn, nodes := s.nodes ++ [(uuidString s.counter, node2)],
          edges := s.edges, mode := s.mode, source_node := s.source_node,
          temp_line := s.temp_line, edge_type := s.edge_type,
          counter := s.counter + 1 + 1 }
        (dictInsert m (uuidString (s.counter + 1)) node2)
        (fun r1 h1 => h r1 (List.mem_cons_of_mem nd h1))
        ?_ ?_
      rotate_left
      · intro kv hkv
        show kv.2.ref < s.counter + 1 + 1
        rcases List.mem_append.mp hkv with h1 | h1
        · have := href kv h1
          omega
        · have : kv.2 = node2 := by simpa using congrArg Prod.snd (List.mem_singleton.mp h1)
          rw [this]
          simp only [hnode2, hnode0]
          omega
      · intro kv hkv k hk
        have hk2 : s.counter + 1 + 1 ≤ k := hk
        rcases List.mem_append.mp hkv with h1 | h1
        · exact hkey kv h1 k (by omega)
        · have : kv.1 = uuidString s.counter := by
            simpa using congrArg Prod.fst (List.mem_singleton.mp h1)
          rw [this]
          intro hcon
          have := uuidString_inj hcon
          omega
      obtain ⟨s2, m2, heq, hgrn, ⟨newE, hnodes⟩, hlen, hcnt, href2, hids, hmap⟩ := h2
      have hcnt2 : s.counter + 1 + 1 ≤ s2.counter := hcnt
      have hlen2 : s2.nodes.length =
          (s.nodes ++ [(uuidString s.counter, node2)]).length + rest.length := hlen
      have hnodes2 : s2.nodes = (s.nodes ++ [(uuidString s.counter, node2)]) ++ newE :=
        hnodes
      refine ⟨s2, m2, heq, hgrn,
        ⟨(uuidString s.counter, node2) :: newE, by rw [hnodes2, List.append_assoc]; rfl⟩,
        by rw [hlen2]; simp [List.length_append]; omega,
        by omega, href2, ?_, ?_⟩
      · intro kv hkv
        rcases hids kv hkv with h1 | h1 | h1
        · rcases List.mem_append.mp h1 with h3 | h3
          · exact Or.inl h3
          · refine Or.inr (Or.inr ⟨s.counter + 1, ?_⟩)
            have : kv.2 = node2 := by
              simpa using congrArg Prod.snd (List.mem_singleton.mp h3)
            rw [this]
        · rcases h1 with ⟨r1, hr1, hr2⟩
          exact Or.inr (Or.inl ⟨r1, List.mem_cons_of_mem nd hr1, hr2⟩)
        · exact Or.inr (Or.inr h1)
      · intro kv hkv
        rcases hmap kv hkv with h1 | h1
        · rcases dictInsert_mem m (uuidString (s.counter + 1)) node2 kv h1 with h3 | h3
          · exact Or.inl h3
          · refine Or.inr ?_
            rw [h3]
            refine List.mem_map.mpr ⟨(uuidString s.counter, node2), ?_, rfl⟩
            rw [hnodes2]
            exact List.mem_append.mpr (Or.inl (List.mem_append.mpr (Or.inr (by simp))))
        · exact Or.inr h1

/-- A successful edge-restoring loop on records whose `type` field is a
valid edge-type value: the loop cannot fail, it leaves GRN and nodes alone,
and every new edge's endpoints are values of the node map. -/
theorem loadEdgesLoop_total (l : List RawEdgeData) :
    ∀ (s : NetworkView) (m : List (String × NetworkNode)) (seen : List (String × String)),
      (∀ r ∈ l, r.type = some 1 ∨ r.type = some (-1)) →
      ∃ s3, loadEdgesLoop l s m seen = (s3, true) ∧
        s3.grn = s.grn ∧ s3.nodes = s.nodes ∧
        ∃ newEdges, s3.edges = s.edges ++ newEdges ∧
          ∀ e ∈ newEdges,
            (∃ kv ∈ m, kv.2 = e.source_node) ∧ (∃ kv ∈ m, kv.2 = e.target_node) := by
  induction l with
  | nil =>
    intro s m seen h
    exact ⟨s, rfl, rfl, rfl, [], by simp, by intro e he; exact absurd he (List.not_mem_nil e)⟩
  | cons r rest ih =>
    intro s m seen h
    rw [loadEdgesLoop]
    cases hsrc : r.source_id.bind (dictGet m) with
    | none => exact ih s m seen (fun r1 h1 => h r1 (List.mem_cons_of_mem r h1))
    | some sn =>
      cases htgt : r.target_id.bind (dictGet m) with
      | none => exact ih s m seen (fun r1 h1 => h r1 (List.mem_cons_of_mem r h1))
      | some tn =>
        simp only
        have hsnm : ∃ kv ∈ m, kv.2 = sn := by
          cases hsi : r.source_id with
          | none => rw [hsi] at hsrc; exact Option.noConfusion hsrc
          | some a =>
            rw [hsi] at hsrc
            obtain ⟨kv, hkv, _, hv⟩ := dictGet_mem m a sn (by simpa using hsrc)
            exact ⟨kv, hkv, hv⟩
        have htnm : ∃ kv ∈ m, kv.2 = tn := by
          cases hti : r.target_id with
          | none => rw [hti] at htgt; exact Option.noConfusion htgt
          | some a =>
            rw [hti] at htgt
            obtain ⟨kv, hkv, _, hv⟩ := dictGet_mem m a tn (by simpa using htgt)
            exact ⟨kv, hkv, hv⟩
        by_cases hseenp : (sn.node_id, tn.node_id) ∈ seen
        · rw [if_pos hseenp]
          exact ih s m seen (fun r1 h1 => h r1 (List.mem_cons_of_mem r h1))
        · rw [if_neg hseenp]
          have hty := h r (List.mem_cons_self r rest)
          have hof : ∃ et, r.type = some (et : EdgeType).value ∧
              EdgeType.ofValue ((et : EdgeType).value) = some et := by
            rcases hty with h1 | h1
            · exact ⟨.ACTIVATION, h1, rfl⟩
            · exact ⟨.INHIBITION, h1, rfl⟩
          obtain ⟨et, hty2, hov⟩ := hof
          rw [hty2]
          simp only [hov]
          obtain ⟨s3, heq, hgrn, hnds, newEdges, hedges, hmem⟩ :=
            ih { s with
                  edges := s.edges ++ [⟨s.counter, sn, tn, et, r.kd.getD 5, r.n.getD 2⟩],
                  counter := s.counter + 1 }
              m (seen ++ [(sn.node_id, tn.node_id)])
              (fun r1 h1 => h r1 (List.mem_cons_of_mem r h1))
          refine ⟨s3, heq, hgrn, hnds,
            ⟨s.counter, sn, tn, et, r.kd.getD 5, r.n.getD 2⟩ :: newEdges, ?_, ?_⟩
          · have hed2 : s3.edges =
                (s.edges ++ [⟨s.counter, sn, tn, et, r.kd.getD 5, r.n.getD 2⟩]) ++
                  newEdges := hedges
            rw [hed2, List.append_assoc]
            rfl
          · intro e he
            rcases List.mem_cons.mp he with rfl | hrest1
            · exact ⟨hsnm, htnm⟩
            · exact hmem e hrest1

/-- The species records a load rebuilds always satisfy input/delta
exclusivity: a record gets no `delta` exactly when its name went into the
rebuilt input list. -/
theorem speciesOfRaw_invariant (specList : List RawSpecies) (ins : List String)
    (hspn : ∀ r ∈ specList, r.name.isSome) :
    ∀ sp ∈ specList.map (speciesOfRaw ins),
      (sp.name ∈ inputNamesOfRaw ins specList ↔ sp.delta = none) := by
  intro sp hsp
  rcases List.mem_map.mp hsp with ⟨r, hr, hreq⟩
  obtain ⟨nm, hnm⟩ := Option.isSome_iff_exists.mp (hspn r hr)
  by_cases hin : nm ∈ ins
  · have hspe : sp = ⟨nm, none⟩ := by
      rw [← hreq]
      simp [speciesOfRaw, hnm, hin]
    subst hspe
    simp only
    constructor
    · intro _
      trivial
    · intro _
      refine List.mem_filterMap.mpr ⟨r, hr, ?_⟩
      rw [hnm]
      simp [hin]
  · have hspe : sp = ⟨nm, some (r.delta.getD (1/10))⟩ := by
      rw [← hreq]
      simp [speciesOfRaw, hnm, hin]
    subst hspe
    simp only
    constructor
    · intro hmem
      exfalso
      rcases List.mem_filterMap.mp hmem with ⟨r1, hr1, hfr1⟩
      cases hname1 : r1.name with
      | none =>
        rw [hname1] at hfr1
        exact Option.noConfusion hfr1
      | some nm1 =>
        rw [hname1] at hfr1
        simp only at hfr1
        by_cases hin1 : nm1 ∈ ins
        · rw [if_pos hin1] at hfr1
          have : nm1 = nm := by simpa using hfr1
          exact hin (this ▸ hin1)
        · rw [if_neg hin1] at hfr1
          exact Option.noConfusion hfr1
    · intro hcon
      exact Option.noConfusion hcon

/-- C3 (amended): the loader accepts documents whose species records carry a
name and whose node records carry `species_name`/`x`/`y` — explicit node ids
are optional; a node without one is assigned a freshly generated id.  Edge
records whose source or target id does not resolve (in particular all legacy
name-keyed edge records) are silently dropped, never resolved via species
names.  After a successful load the edge-endpoint and input/delta invariants
hold, and the gene list is restored verbatim (so gene non-emptiness holds
exactly when the document's genes are non-empty).  Fully name-keyed legacy
documents (node records without `species_name`) are rejected. -/
theorem C3_load_amended (nd : NetworkData) (s : NetworkView)
    (grnd : RawGRNData) (specList : List RawSpecies) (ins : List String)
    (genes : List Gene) (nodeList : List RawNodeData) (edgeList : List RawEdgeData)
    (hgrn : nd.grn = some grnd)
    (hspecs : grnd.species = some specList)
    (hins : grnd.input_species_names = some ins)
    (hgenes : grnd.genes = some genes)
    (hnodes : nd.nodes = some nodeList)
    (hedges : nd.edges = some edgeList)
    (hspn : ∀ r ∈ specList, r.name.isSome)
    (hnodereq : ∀ r ∈ nodeList, r.species_name.isSome ∧ r.x.isSome ∧ r.y.isSome)
    (hedgety : ∀ r ∈ edgeList, r.type = some 1 ∨ r.type = some (-1))
    (hgenereg : ∀ g ∈ genes, g.regulators ≠ []) :
    ∃ s2, MainWindow.load_network (some nd) s = (s2, true) ∧
      s2.nodes.length = nodeList.length ∧
      (∀ kv ∈ s2.nodes,
        (∃ r ∈ nodeList, r.node_id = some kv.2.node_id) ∨ ∃ k, kv.2.node_id = uuidString k) ∧
      (∀ e ∈ s2.edges,
        (∃ kv ∈ s2.nodes, kv.2 = e.source_node) ∧ (∃ kv ∈ s2.nodes, kv.2 = e.target_node)) ∧
      (∀ sp ∈ s2.grn.species, (sp.name ∈ s2.grn.input_species_names ↔ sp.delta = none)) ∧
      (∀ g ∈ s2.grn.genes, g.regulators ≠ []) := by
  have hS : loadSpeciesLoop specList (some ins) GRN.empty =
      (⟨specList.map (speciesOfRaw ins), inputNamesOfRaw ins specList, []⟩, true) := by
    rw [loadSpeciesLoop_spec specList ins GRN.empty hspn]
    rfl
  obtain ⟨s2m, m2, heq2, hgrn2, ⟨newE, hnodes2⟩, hlen2, hcnt2, href2, hids2, hmap2⟩ :=
    loadNodesLoop_total nodeList
      { grn := ⟨specList.map (speciesOfRaw ins), inputNamesOfRaw ins specList, []⟩,
        nodes := [], edges := [], mode := s.mode, source_node := s.source_node,
        temp_line := s.temp_line, edge_type := s.edge_type, counter := s.counter }
      [] hnodereq
      (by intro kv hkv; exact absurd hkv (List.not_mem_nil kv))
      (by intro kv hkv k _; exact absurd hkv (List.not_mem_nil kv))
  obtain ⟨s3, heq3, hgrn3, hnds3, newEdges, hedges3, hmem3⟩ :=
    loadEdgesLoop_total edgeList s2m m2 [] hedgety
  have hedges2 : s2m.edges = [] := by
    have h0 := loadNodesLoop_edges nodeList
      { grn := ⟨specList.map (speciesOfRaw ins), inputNamesOfRaw ins specList, []⟩,
        nodes := [], edges := [], mode := s.mode, source_node := s.source_node,
        temp_line := s.temp_line, edge_type := s.edge_type, counter := s.counter } []
    rw [heq2] at h0
    exact h0
  refine ⟨{ s3 with grn := { s3.grn with genes := genes } }, ?_, ?_, ?_, ?_, ?_, ?_⟩
  · simp only [MainWindow.load_network, hgrn, hspecs, hins, hnodes, hedges, hgenes,
      NetworkView.clear, hS, heq2, heq3]
    simp
  · have : s3.nodes = s2m.nodes := hnds3
    simp only [this]
    rw [hlen2]
    simp
  · intro kv hkv
    have hkv2 : kv ∈ s2m.nodes := by
      have : s3.nodes = s2m.nodes := hnds3
      rw [← this]
      exact hkv
    rcases hids2 kv hkv2 with h1 | h1 | h1
    · exact absurd h1 (List.not_mem_nil kv)
    · exact Or.inl h1
    · exact Or.inr h1
  · intro e he
    have he2 : e ∈ newEdges := by
      have h4 : s3.edges = s2m.edges ++ newEdges := hedges3
      rw [hedges2] at h4
      have : s3.edges = newEdges := by simpa using h4
      rw [← this]
      exact he
    obtain ⟨⟨kvs, hkvs, hkvs2⟩, ⟨kvt, hkvt, hkvt2⟩⟩ := hmem3 e he2
    constructor
    · rcases hmap2 kvs hkvs with h1 | h1
      · exact absurd h1 (List.not_mem_nil kvs)
      · rcases List.mem_map.mp h1 with ⟨kv1, hkv1, hkv1e⟩
        refine ⟨kv1, ?_, by rw [hkv1e, hkvs2]⟩
        have : s3.nodes = s2m.nodes := hnds3
        rw [this]
        exact hkv1
    · rcases hmap2 kvt hkvt with h1 | h1
      · exact absurd h1 (List.not_mem_nil kvt)
      · rcases List.mem_map.mp h1 with ⟨kv1, hkv1, hkv1e⟩
        refine ⟨kv1, ?_, by rw [hkv1e, hkvt2]⟩
        have : s3.nodes = s2m.nodes := hnds3
        rw [this]
        exact hkv1
  · intro sp hsp
    have hg : s3.grn =
        (⟨specList.map (speciesOfRaw ins), inputNamesOfRaw ins specList, []⟩ : GRN) := by
      rw [hgrn3, hgrn2]
    simp only [hg] at hsp ⊢
    exact speciesOfRaw_invariant specList ins hspn sp hsp
  · intro g hg
    exact hgenereg g hg

/-- The species record of the C3 witness document. -/
def specRecC3 : RawSpecies := ⟨some "X", some 1⟩

/-- A node record without `node_id` (legacy tolerance: a fresh id must be
assigned), carrying the legacy `name` key alongside the required fields. -/
def nodeRecC3 : RawNodeData :=
  { node_id := none, species_name := some "X", display_name := none,
    x := some 0, y := some 0, logic_type := none, alpha := none, name := some "X" }

/-- A legacy edge record: species-keyed `source`/`target`, no
`source_id`/`target_id` — the loader drops it silently. -/
def edgeRecC3 : RawEdgeData :=
  ⟨none, none, none, none, some 1, none, none, some "X", some "X"⟩

/-- The `grn` object of the C3 witness document. -/
def grnRecC3 : RawGRNData :=
  { species := some [specRecC3], input_species_names := some [], genes := some [] }

/-- The C3 witness document. -/
def docC3 : NetworkData :=
  { nodes := some [nodeRecC3], edges := some [edgeRecC3], grn := some grnRecC3 }

/-- Witness for `C3_load_amended` at `docC3`. -/
theorem C3_load_amended_witness :
    (docC3.grn = some grnRecC3 ∧ grnRecC3.species = some [specRecC3] ∧
     grnRecC3.input_species_names = some [] ∧ grnRecC3.genes = some [] ∧
     docC3.nodes = some [nodeRecC3] ∧ docC3.edges = some [edgeRecC3] ∧
     (∀ r ∈ [specRecC3], r.name.isSome) ∧
     (∀ r ∈ [nodeRecC3], r.species_name.isSome ∧ r.x.isSome ∧ r.y.isSome) ∧
     (∀ r ∈ [edgeRecC3], r.type = some 1 ∨ r.type = some (-1)) ∧
     (∀ g ∈ ([] : List Gene), g.regulators ≠ [])) ∧
    (∃ s2, MainWindow.load_network (some docC3) NetworkView.init = (s2, true) ∧
      s2.nodes.length = [nodeRecC3].length ∧
      (∀ kv ∈ s2.nodes,
        (∃ r ∈ [nodeRecC3], r.node_id = some kv.2.node_id) ∨
          ∃ k, kv.2.node_id = uuidString k) ∧
      (∀ e ∈ s2.edges,
        (∃ kv ∈ s2.nodes, kv.2 = e.source_node) ∧
        (∃ kv ∈ s2.nodes, kv.2 = e.target_node)) ∧
      (∀ sp ∈ s2.grn.species, (sp.name ∈ s2.grn.input_species_names ↔ sp.delta = none)) ∧
      (∀ g ∈ s2.grn.genes, g.regulators ≠ [])) :=
  ⟨⟨rfl, rfl, rfl, rfl, rfl, rfl, by decide, by decide, by decide, by decide⟩,
   C3_load_amended docC3 NetworkView.init grnRecC3 [specRecC3] [] [] [nodeRecC3]
     [edgeRecC3] rfl rfl rfl rfl rfl rfl (by decide) (by decide) (by decide) (by decide)⟩

/-! ### C2: the save/load round trip -/

/-- The observable content of a node (everything but the object id). -/
def nodeObs (n : NetworkNode) : String × String × String × Rat × Rat × String × Rat :=
  (n.node_id, n.species_name, n.display_name, n.posx, n.posy, n.logic_type, n.alpha)

/-- Shifting a node's stored position by the radius: what one save/load
round trip does to `pos()` (save writes `pos()`, the reload constructor
subtracts the radius again). -/
def shiftNode (n : NetworkNode) : NetworkNode :=
  { n with posx := n.posx - nodeRadius, posy := n.posy - nodeRadius }

/-- The observable content of an edge: endpoint ids, type and parameters. -/
def edgeObs (e : NetworkEdge) : String × String × EdgeType × Rat × Rat :=
  (e.source_node.node_id, e.target_node.node_id, e.edge_type, e.kd, e.n)

/-- The node the loader rebuilds from a saved node record: same observable
fields except the position shift, with a fresh object id. -/
def reloadNode (n : NetworkNode) (r : Nat) : NetworkNode :=
  { ref := r, species_name := n.species_name,
    display_name := resolveDisplay (some n.display_name) n.species_name,
    node_id := n.node_id, posx := n.posx - nodeRadius, posy := n.posy - nodeRadius,
    logic_type := n.logic_type, alpha := n.alpha }

/-- The node entries the loader rebuilds from saved records, keyed by fresh
uuids. -/
def reloadNodes (orig : List (String × NetworkNode)) (c : Nat) :
    List (String × NetworkNode) :=
  match orig with
  | [] => []
  | kv :: rest => (uuidString c, reloadNode kv.2 c) :: reloadNodes rest (c + 1)

/-- The node_map the loader accumulates from saved records, keyed by the
documents' node ids. -/
def reloadMap (orig : List (String × NetworkNode)) (c : Nat)
    (m : List (String × NetworkNode)) : List (String × NetworkNode) :=
  match orig with
  | [] => m
  | kv :: rest => reloadMap rest (c + 1) (dictInsert m kv.2.node_id (reloadNode kv.2 c))

/-- The pure computation the node-restoring loop performs: the new node
entries (keyed by fresh uuids), the final node_map, and the final counter.
Defined on records assumed complete (`getD` defaults never matter on the
records the loop actually accepts). -/
def buildLoad (l : List RawNodeData) (c : Nat) (m : List (String × NetworkNode)) :
    List (String × NetworkNode) × List (String × NetworkNode) × Nat :=
  match l with
  | [] => ([], m, c)
  | nd :: rest =>
    let sp := nd.species_name.getD ""
    let node0 : NetworkNode :=
      { ref := c, species_name := sp,
        display_name := resolveDisplay nd.display_name sp,
        node_id := uuidString c,
        posx := nd.x.getD 0 - nodeRadius, posy := nd.y.getD 0 - nodeRadius,
        logic_type := nd.logic_type.getD "and", alpha := 10 }
    let idc : String × Nat :=
      match nd.node_id with
      | some i => (i, c + 1)
      | none => (uuidString (c + 1), c + 2)
    let node2 := { node0 with node_id := idc.1, alpha := nd.alpha.getD 10 }
    let res := buildLoad rest idc.2 (dictInsert m idc.1 node2)
    ((uuidString c, node2) :: res.1, res.2.1, res.2.2)

/-- On complete records the node-restoring loop computes exactly
`buildLoad`. -/
theorem loadNodesLoop_eq_buildLoad (l : List RawNodeData) :
    ∀ (s : NetworkView) (m : List (String × NetworkNode)),
      (∀ r ∈ l, r.species_name.isSome ∧ r.x.isSome ∧ r.y.isSome) →
      (∀ kv ∈ s.nodes, kv.2.ref < s.counter) →
      (∀ kv ∈ s.nodes, ∀ k, s.counter ≤ k → kv.1 ≠ uuidString k) →
      loadNodesLoop l s m =
        ({ s with nodes := s.nodes ++ (buildLoad l s.counter m).1,
                  counter := (buildLoad l s.counter m).2.2 },
         (buildLoad l s.counter m).2.1, true) := by
  induction l with
  | nil =>
    intro s m h href hkey
    simp [loadNodesLoop, buildLoad]
  | cons nd rest ih =>
    intro s m h href hkey
    obtain ⟨hsp, hx, hy⟩ := h nd (List.mem_cons_self nd rest)
    obtain ⟨sp, hsp⟩ := Option.isSome_iff_exists.mp hsp
    obtain ⟨x, hx⟩ := Option.isSome_iff_exists.mp hx
    obtain ⟨y, hy⟩ := Option.isSome_iff_exists.mp hy
    rw [loadNodesLoop, hsp, hx, hy]
    simp only [NetworkView.add_node]
    have hnokey : ¬ s.nodes.any (fun kv => kv.1 = uuidString s.counter) = true := by
      intro hcon
      rcases List.any_eq_true.mp hcon with ⟨kv, hkv, heq⟩
      exact hkey kv hkv s.counter (le_refl _) (by simpa using heq)
    rw [dictInsert_of_not_mem _ _ _ hnokey]
    set node0 : NetworkNode :=
      { ref := s.counter, species_name := sp,
        display_name := resolveDisplay nd.display_name sp,
        node_id := uuidString s.counter,
        posx := x - nodeRadius, posy := y - nodeRadius,
        logic_type := nd.logic_type.getD "and", alpha := 10 } with hnode0
    have hbuild : buildLoad (nd :: rest) s.counter m =
        ((uuidString s.counter,
          { node0 with
            node_id := (match nd.node_id with
              | some i => ((i, s.counter + 1) : String × Nat)
              | none => (uuidString (s.counter + 1), s.counter + 2)).1,
            alpha := nd.alpha.getD 10 }) ::
          (buildLoad rest
            (match nd.node_id with
              | some i => ((i, s.counter + 1) : String × Nat)
              | none => (uuidString (s.counter + 1), s.counter + 2)).2
            (dictInsert m
              (match nd.node_id with
                | some i => ((i, s.counter + 1) : String × Nat)
                | none => (uuidString (s.counter + 1), s.counter + 2)).1
              { node0 with
                node_id := (match nd.node_id with
                  | some i => ((i, s.counter + 1) : String × Nat)
                  | none => (uuidString (s.counter + 1), s.counter + 2)).1,
                alpha := nd.alpha.getD 10 })).1,
          (buildLoad rest
            (match nd.node_id with
              | some i => ((i, s.counter + 1) : String × Nat)
              | none => (uuidString (s.counter + 1), s.counter + 2)).2
            (dictInsert m
              (match nd.node_id with
                | some i => ((i, s.counter + 1) : String × Nat)
                | none => (uuidString (s.counter + 1), s.counter + 2)).1
              { node0 with
                node_id := (match nd.node_id with
                  | some i => ((i, s.counter + 1) : String × Nat)
                  | none => (uuidString (s.counter + 1), s.counter + 2)).1,
                alpha := nd.alpha.getD 10 })).2.1,
          (buildLoad rest
            (match nd.node_id with
              | some i => ((i, s.counter + 1) : String × Nat)
              | none => (uuidString (s.counter + 1), s.counter + 2)).2
            (dictInsert m
              (match nd.node_id with
                | some i => ((i, s.counter + 1) : String × Nat)
                | none => (uuidString (s.counter + 1), s.counter + 2)).1
              { node0 with
                node_id := (match nd.node_id with
                  | some i => ((i, s.counter + 1) : String × Nat)
                  | none => (uuidString (s.counter + 1), s.counter + 2)).1,
                alpha := nd.alpha.getD 10 })).2.2) := by
      rw [buildLoad]
      simp only [hsp, hx, hy, Option.getD_some, hnode0]
    cases hid : nd.node_id with
    | some i =>
      simp only
      set node2 : NetworkNode := { node0 with node_id := i, alpha := nd.alpha.getD 10 }
        with hnode2
      have hmapped :
          (s.nodes ++ [(uuidString s.counter, node0)]).map
            (fun kv => if kv.2.ref = node2.ref then (kv.1, node2) else kv) =
          s.nodes ++ [(uuidString s.counter, node2)] := by
        rw [List.map_append]
        congr 1
        · refine List.map_congr_left ?_ |>.trans (List.map_id s.nodes)
          intro kv hkv
          have : kv.2.ref ≠ node2.ref := by
            have := href kv hkv
            simp only [hnode2, hnode0]
            omega
          simp [this]
        · simp [hnode2]
      rw [hmapped]
      rw [ih { s with
            nodes := s.nodes ++ [(uuidString s.counter, node2)],
            edges := s.edges, counter := s.counter + 1 }
          (dictInsert m i node2)
          (fun r1 h1 => h r1 (List.mem_cons_of_mem nd h1)) ?_ ?_]
      rotate_left
      · intro kv hkv
        show kv.2.ref < s.counter + 1
        rcases List.mem_append.mp hkv with h1 | h1
        · have := href kv h1
          omega
        · have : kv.2 = node2 := by
            simpa using congrArg Prod.snd (List.mem_singleton.mp h1)
          rw [this]
          simp [hnode2, hnode0]
      · intro kv hkv k hk
        have hk2 : s.counter + 1 ≤ k := hk
        rcases List.mem_append.mp hkv with h1 | h1
        · exact hkey kv h1 k (by omega)
        · have : kv.1 = uuidString s.counter := by
            simpa using congrArg Prod.fst (List.mem_singleton.mp h1)
          rw [this]
          intro hcon
          have := uuidString_inj hcon
          omega
      rw [hbuild, hid]
      simp [List.append_assoc]
    | none =>
      simp only
      set node2 : NetworkNode :=
        { node0 with node_id := uuidString (s.counter + 1), alpha := nd.alpha.getD 10 }
        with hnode2
      have hmapped :
          (s.nodes ++ [(uuidString s.counter, node0)]).map
            (fun kv => if kv.2.ref = node2.ref then (kv.1, node2) else kv) =
          s.nodes ++ [(uuidString s.counter, node2)] := by
        rw [List.map_append]
        congr 1
        · refine List.map_congr_left ?_ |>.trans (List.map_id s.nodes)
          intro kv hkv
          have : kv.2.ref ≠ node2.ref := by
            have := href kv hkv
            simp only [hnode2, hnode0]
            omega
          simp [this]
        · simp [hnode2]
      rw [hmapped]
      rw [ih { s with
            nodes := s.nodes ++ [(uuidString s.counter, node2)],
            edges := s.edges, counter := s.counter + 1 + 1 }
          (dictInsert m (uuidString (s.counter + 1)) node2)
          (fun r1 h1 => h r1 (List.mem_cons_of_mem nd h1)) ?_ ?_]
      rotate_left
      · intro kv hkv
        show kv.2.ref < s.counter + 1 + 1
        rcases List.mem_append.mp hkv with h1 | h1
        · have := href kv h1
          omega
        · have : kv.2 = node2 := by
            simpa using congrArg Prod.snd (List.mem_singleton.mp h1)
          rw [this]
          simp only [hnode2, hnode0]
          omega
      · intro kv hkv k hk
        have hk2 : s.counter + 1 + 1 ≤ k := hk
        rcases List.mem_append.mp hkv with h1 | h1
        · exact hkey kv h1 k (by omega)
        · have : kv.1 = uuidString s.counter := by
            simpa using congrArg Prod.fst (List.mem_singleton.mp h1)
          rw [this]
          intro hcon
          have := uuidString_inj hcon
          omega
      rw [hbuild, hid]
      simp [List.append_assoc]

/-- Projections of a saved node record. -/
theorem nodeToRaw_fields (n : NetworkNode) :
    (nodeToRaw n).species_name = some n.species_name ∧
    (nodeToRaw n).x = some n.posx ∧ (nodeToRaw n).y = some n.posy ∧
    (nodeToRaw n).node_id = some n.node_id ∧
    (nodeToRaw n).display_name = some n.display_name ∧
    (nodeToRaw n).logic_type = some n.logic_type ∧
    (nodeToRaw n).alpha = some n.alpha :=
  ⟨rfl, rfl, rfl, rfl, rfl, rfl, rfl⟩

/-- On the records written by `save_network`, `buildLoad` computes the
reloaded entries, the id-keyed map, and one counter step per node. -/
theorem buildLoad_save (orig : List (String × NetworkNode)) :
    ∀ (c : Nat) (m : List (String × NetworkNode)),
      buildLoad (orig.map (fun kv => nodeToRaw kv.2)) c m =
        (reloadNodes orig c, reloadMap orig c m, c + orig.length) := by
  induction orig with
  | nil =>
    intro c m
    simp [buildLoad, reloadNodes, reloadMap]
  | cons kv0 rest ih =>
    intro c m
    rw [List.map_cons, buildLoad]
    obtain ⟨hf1, hf2, hf3, hf4, hf5, hf6, hf7⟩ := nodeToRaw_fields kv0.2
    simp only [hf1, hf2, hf3, hf4, hf5, hf6, hf7, Option.getD_some]
    have hfold : (⟨c, kv0.2.species_name,
        resolveDisplay (some kv0.2.display_name) kv0.2.species_name,
        kv0.2.node_id, kv0.2.posx - nodeRadius,
        kv0.2.posy - nodeRadius, kv0.2.logic_type,
        kv0.2.alpha⟩ : NetworkNode) = reloadNode kv0.2 c := rfl
    rw [hfold]
    rw [ih (c + 1) (dictInsert m kv0.2.node_id (reloadNode kv0.2 c))]
    simp only [reloadNodes, reloadMap, reloadNode, Prod.mk.injEq, List.length_cons,
      true_and, and_true]
    omega

/-- Map values registered by a reload carry their key as `node_id`. -/
theorem dictInsert_value_id (m : List (String × NetworkNode)) (k : String)
    (v : NetworkNode) (hv : v.node_id = k)
    (h : ∀ kv ∈ m, kv.2.node_id = kv.1) :
    ∀ kv ∈ dictInsert m k v, kv.2.node_id = kv.1 := by
  intro kv hkv
  unfold dictInsert at hkv
  split at hkv
  · rcases List.mem_map.mp hkv with ⟨kv1, hkv1, heq⟩
    by_cases h1 : kv1.1 = k
    · rw [if_pos h1] at heq
      rw [← heq]
      exact hv
    · rw [if_neg h1] at heq
      exact heq ▸ h kv1 hkv1
  · rcases List.mem_append.mp hkv with h1 | h1
    · exact h kv h1
    · have : kv = (k, v) := List.mem_singleton.mp h1
      rw [this]
      exact hv

/-- Every entry of the reloaded node_map carries its key as `node_id`. -/
theorem reloadMap_value_id (orig : List (String × NetworkNode)) :
    ∀ (c : Nat) (m : List (String × NetworkNode)),
      (∀ kv ∈ m, kv.2.node_id = kv.1) →
      ∀ kv ∈ reloadMap orig c m, kv.2.node_id = kv.1 := by
  induction orig with
  | nil => intro c m h; exact h
  | cons kv0 rest ih =>
    intro c m h
    rw [reloadMap]
    exact ih (c + 1) _ (dictInsert_value_id m kv0.2.node_id (reloadNode kv0.2 c) rfl h)

/-- Key membership of the insertion-ordered dict as an existential. -/
theorem dictGet_isSome_iff (m : List (String × NetworkNode)) (nid : String) :
    (dictGet m nid).isSome ↔ ∃ kv ∈ m, kv.1 = nid := by
  unfold dictGet
  constructor
  · intro h
    cases hf : m.find? (fun kv => kv.1 = nid) with
    | none =>
      rw [hf] at h
      simp at h
    | some kv =>
      refine ⟨kv, List.mem_of_find?_eq_some hf, ?_⟩
      have := List.find?_some hf
      simpa using this
  · rintro ⟨kv, hkv, hk⟩
    cases hf : m.find? (fun kv => kv.1 = nid) with
    | none =>
      have := List.find?_eq_none.mp hf kv hkv
      simp [hk] at this
    | some kv1 =>
      simp

/-- Inserting preserves and adds key membership. -/
theorem dictInsert_get_isSome (m : List (String × NetworkNode)) (k : String)
    (v : NetworkNode) (nid : String)
    (h : (dictGet m nid).isSome ∨ nid = k) :
    (dictGet (dictInsert m k v) nid).isSome := by
  rw [dictGet_isSome_iff]
  unfold dictInsert
  split
  · rename_i hany
    rcases h with h1 | h1
    · rcases (dictGet_isSome_iff m nid).mp h1 with ⟨kv, hkv, hk⟩
      by_cases h2 : kv.1 = k
      · refine ⟨(k, v), List.mem_map.mpr ⟨kv, hkv, by rw [if_pos h2]⟩, ?_⟩
        rw [← h2, hk]
      · exact ⟨kv, List.mem_map.mpr ⟨kv, hkv, by rw [if_neg h2]⟩, hk⟩
    · rcases List.any_eq_true.mp hany with ⟨kv, hkv, hk⟩
      refine ⟨(k, v), List.mem_map.mpr ⟨kv, hkv, by rw [if_pos (by simpa using hk)]⟩, h1.symm⟩
  · rcases h with h1 | h1
    · rcases (dictGet_isSome_iff m nid).mp h1 with ⟨kv, hkv, hk⟩
      exact ⟨kv, List.mem_append.mpr (Or.inl hkv), hk⟩
    · exact ⟨(k, v), List.mem_append.mpr (Or.inr (by simp)), h1.symm⟩

/-- Every node id of the saved records is a key of the reloaded map. -/
theorem reloadMap_get_isSome (orig : List (String × NetworkNode)) :
    ∀ (c : Nat) (m : List (String × NetworkNode)) (nid : String),
      ((dictGet m nid).isSome ∨ nid ∈ orig.map (fun kv => kv.2.node_id)) →
      (dictGet (reloadMap orig c m) nid).isSome := by
  induction orig with
  | nil =>
    intro c m nid h
    rcases h with h1 | h1
    · exact h1
    · exact absurd h1 (by simp)
  | cons kv0 rest ih =>
    intro c m nid h
    rw [reloadMap]
    refine ih (c + 1) _ nid ?_
    rcases h with h1 | h1
    · exact Or.inl (dictInsert_get_isSome m _ _ nid (Or.inl h1))
    · rw [List.map_cons] at h1
      rcases List.mem_cons.mp h1 with h2 | h2
      · exact Or.inl (dictInsert_get_isSome m _ _ nid (Or.inr h2))
      · exact Or.inr h2

/-- `EdgeType(et.value)` recovers the member. -/
theorem EdgeType.ofValue_value (et : EdgeType) : EdgeType.ofValue et.value = some et := by
  cases et <;> rfl

/-- Projections of a saved edge record. -/
theorem edgeToRaw_fields (e : NetworkEdge) :
    (edgeToRaw e).source_id = some e.source_node.node_id ∧
    (edgeToRaw e).target_id = some e.target_node.node_id ∧
    (edgeToRaw e).type = some e.edge_type.value ∧
    (edgeToRaw e).kd = some e.kd ∧ (edgeToRaw e).n = some e.n :=
  ⟨rfl, rfl, rfl, rfl, rfl⟩

/-- On a map whose values carry their key as `node_id`, a successful get
returns a value whose `node_id` is the requested id. -/
theorem dictGet_value_id (m : List (String × NetworkNode)) (nid : String)
    (v : NetworkNode) (hmap : ∀ kv ∈ m, kv.2.node_id = kv.1)
    (h : dictGet m nid = some v) : v.node_id = nid := by
  obtain ⟨kv, hkv, hk, hv⟩ := dictGet_mem m nid v h
  rw [← hv, hmap kv hkv, hk]

/-- On the records written by `save_network`, the edge-restoring loop
succeeds and rebuilds every edge's observable content, in document order. -/
theorem loadEdgesLoop_reload (es : List NetworkEdge) :
    ∀ (s : NetworkView) (m : List (String × NetworkNode)) (seen : List (String × String)),
      (∀ kv ∈ m, kv.2.node_id = kv.1) →
      (∀ e ∈ es, (dictGet m e.source_node.node_id).isSome ∧
        (dictGet m e.target_node.node_id).isSome) →
      (∀ e ∈ es, pairOf e ∉ seen) →
      (es.map pairOf).Nodup →
      ∃ s3, loadEdgesLoop (es.map edgeToRaw) s m seen = (s3, true) ∧
        s3.grn = s.grn ∧ s3.nodes = s.nodes ∧
        ∃ newEdges, s3.edges = s.edges ++ newEdges ∧
          newEdges.map edgeObs = es.map edgeObs := by
  induction es with
  | nil =>
    intro s m seen hmap hres hseen hnd
    exact ⟨s, rfl, rfl, rfl, [], by simp, rfl⟩
  | cons e rest ih =>
    intro s m seen hmap hres hseen hnd
    obtain ⟨hf1, hf2, hf3, hf4, hf5⟩ := edgeToRaw_fields e
    obtain ⟨hs1, ht1⟩ := hres e (List.mem_cons_self e rest)
    obtain ⟨sn, hsn⟩ := Option.isSome_iff_exists.mp hs1
    obtain ⟨tn, htn⟩ := Option.isSome_iff_exists.mp ht1
    have hsnid : sn.node_id = e.source_node.node_id := dictGet_value_id m _ sn hmap hsn
    have htnid : tn.node_id = e.target_node.node_id := dictGet_value_id m _ tn hmap htn
    have hsrcb : (edgeToRaw e).source_id.bind (dictGet m) = some sn := by
      rw [hf1]; exact hsn
    have htgtb : (edgeToRaw e).target_id.bind (dictGet m) = some tn := by
      rw [hf2]; exact htn
    rw [List.map_cons, loadEdgesLoop, hsrcb, htgtb]
    simp only
    have hnotseen : ¬ (sn.node_id, tn.node_id) ∈ seen := by
      rw [hsnid, htnid]
      exact hseen e (List.mem_cons_self e rest)
    rw [if_neg hnotseen, hf3]
    simp only [EdgeType.ofValue_value, hf4, hf5, Option.getD_some]
    have hnd' : (∀ x ∈ rest, ¬ pairOf x = pairOf e) ∧ (rest.map pairOf).Nodup := by
      simpa using hnd
    have hseen2 : ∀ e1 ∈ rest, pairOf e1 ∉ seen ++ [(sn.node_id, tn.node_id)] := by
      intro e1 h1 hcon
      rcases List.mem_append.mp hcon with h2 | h2
      · exact hseen e1 (List.mem_cons_of_mem e h1) h2
      · have h3 := List.mem_singleton.mp h2
        have hp : pairOf e1 = pairOf e := by
          rw [h3, hsnid, htnid, pairOf]
        exact hnd'.1 e1 h1 hp
    obtain ⟨s3, heq, hgrn, hnds, newEdges, hedges, hobs⟩ :=
      ih { s with
            edges := s.edges ++ [⟨s.counter, sn, tn, e.edge_type, e.kd, e.n⟩],
            counter := s.counter + 1 }
        m (seen ++ [(sn.node_id, tn.node_id)]) hmap
        (fun e1 h1 => hres e1 (List.mem_cons_of_mem e h1)) hseen2 hnd'.2
    refine ⟨s3, heq, hgrn, hnds,
      ⟨s.counter, sn, tn, e.edge_type, e.kd, e.n⟩ :: newEdges, ?_, ?_⟩
    · have hed2 : s3.edges =
          (s.edges ++ [⟨s.counter, sn, tn, e.edge_type, e.kd, e.n⟩]) ++ newEdges := hedges
      rw [hed2, List.append_assoc]
      rfl
    · rw [List.map_cons, List.map_cons, hobs]
      have hhd : edgeObs ⟨s.counter, sn, tn, e.edge_type, e.kd, e.n⟩ = edgeObs e := by
        simp [edgeObs, hsnid, htnid]
      rw [hhd]

/-- Reloaded nodes preserve every observable except the position shift,
provided no display name is empty (an empty one would fall back to the
species name). -/
theorem reloadNodes_obs (orig : List (String × NetworkNode)) :
    ∀ c, (∀ kv ∈ orig, kv.2.display_name ≠ "") →
      (reloadNodes orig c).map (fun kv => nodeObs kv.2) =
        orig.map (fun kv => nodeObs (shiftNode kv.2)) := by
  induction orig with
  | nil => intro c h; rfl
  | cons kv rest ih =>
    intro c h
    rw [reloadNodes]
    simp only [List.map_cons]
    rw [ih (c + 1) (fun kv1 h1 => h kv1 (List.mem_cons_of_mem kv h1))]
    have hobs : nodeObs (reloadNode kv.2 c) = nodeObs (shiftNode kv.2) := by
      simp [nodeObs, reloadNode, shiftNode, resolveDisplay,
        h kv (List.mem_cons_self kv rest)]
    rw [hobs]

/-- Reading back the species records written by `save_network` restores them
verbatim when input/delta exclusivity holds for the written records. -/
theorem speciesOfRaw_roundtrip (l : List Species) (ins : List String)
    (hinv : ∀ sp ∈ l, (sp.name ∈ ins ↔ sp.delta = none)) :
    (l.map (fun sp => (⟨some sp.name, sp.delta⟩ : RawSpecies))).map (speciesOfRaw ins) =
      l := by
  rw [List.map_map]
  refine List.map_congr_left ?_ |>.trans (List.map_id l)
  intro sp hsp
  obtain ⟨nm, d⟩ := sp
  have hiff : nm ∈ ins ↔ d = none := by simpa using hinv ⟨nm, d⟩ hsp
  by_cases hin : nm ∈ ins
  · have hd : d = none := hiff.mp hin
    subst hd
    simp [speciesOfRaw, hin]
  · have hd : d ≠ none := fun hc => hin (hiff.mpr hc)
    obtain ⟨d0, hd0⟩ := Option.ne_none_iff_exists.mp hd
    subst hd0
    simp [speciesOfRaw, hin]

/-- The input names read back from the saved species records are the rebuilt
dict's names filtered to the model's input list. -/
theorem inputNamesOfRaw_save (l : List Species) (ins : List String) :
    inputNamesOfRaw ins (l.map (fun sp => (⟨some sp.name, sp.delta⟩ : RawSpecies))) =
      (l.map (fun sp => sp.name)).filter (fun nm => decide (nm ∈ ins)) := by
  induction l with
  | nil => rfl
  | cons sp rest ih =>
    by_cases hin : sp.name ∈ ins <;>
      simp only [inputNamesOfRaw, List.map_cons, List.filterMap_cons,
        List.filter_cons] at ih ⊢ <;>
      simp [hin, ih]

/-- Under the coverage hypothesis the species dict `save_network` rebuilds is
a permutation of the model's species list. -/
theorem buildSpeciesData_perm (s : NetworkView)
    (hspn : (s.grn.species.map (fun sp => sp.name)).Nodup)
    (hcov : ∀ sp ∈ s.grn.species, ∃ kv ∈ s.nodes, kv.2.species_name = sp.name) :
    List.Perm (buildSpeciesData s.nodes s.grn.species) s.grn.species := by
  have hbnd : ((buildSpeciesData s.nodes s.grn.species).map (fun sp => sp.name)).Nodup :=
    speciesFold_names_nodup s.nodes s.grn.species [] (by simp)
  have hnd1 : (buildSpeciesData s.nodes s.grn.species).Nodup := List.Nodup.of_map _ hbnd
  have hnd2 : s.grn.species.Nodup := List.Nodup.of_map _ hspn
  rw [List.perm_ext_iff_of_nodup hnd1 hnd2]
  intro sp
  constructor
  · intro hsp
    rcases speciesFold_mem s.nodes s.grn.species [] sp hsp with h1 | ⟨h1, _⟩
    · exact absurd h1 (List.not_mem_nil sp)
    · exact h1
  · intro hsp
    have hfind : (s.grn.species.find? (fun sp1 => sp1.name = sp.name)).isSome := by
      cases hf : s.grn.species.find? (fun sp1 => sp1.name = sp.name) with
      | none =>
        have := List.find?_eq_none.mp hf sp hsp
        simp at this
      | some x => rfl
    have hnm : sp.name ∈ (buildSpeciesData s.nodes s.grn.species).map
        (fun sp1 => sp1.name) :=
      speciesFold_names_cover s.nodes s.grn.species [] sp.name (hcov sp hsp) hfind
    rcases List.mem_map.mp hnm with ⟨sp1, hsp1, hname1⟩
    have hsp1mem : sp1 ∈ s.grn.species := by
      rcases speciesFold_mem s.nodes s.grn.species [] sp1 hsp1 with h1 | ⟨h1, _⟩
      · exact absurd h1 (List.not_mem_nil sp1)
      · exact h1
    have heq1 : sp1 = sp := List.inj_on_of_nodup_map hspn hsp1mem hsp hname1
    exact heq1 ▸ hsp1

/-- Under coverage and containment the input names read back are a
permutation of the model's input list. -/
theorem savedInputs_perm (s : NetworkView)
    (hinn : s.grn.input_species_names.Nodup)
    (hinsub : ∀ nm ∈ s.grn.input_species_names,
      nm ∈ s.grn.species.map (fun sp => sp.name))
    (hcov : ∀ sp ∈ s.grn.species, ∃ kv ∈ s.nodes, kv.2.species_name = sp.name) :
    List.Perm
      (((buildSpeciesData s.nodes s.grn.species).map (fun sp => sp.name)).filter
        (fun nm => decide (nm ∈ s.grn.input_species_names)))
      s.grn.input_species_names := by
  have hbnd : ((buildSpeciesData s.nodes s.grn.species).map (fun sp => sp.name)).Nodup :=
    speciesFold_names_nodup s.nodes s.grn.species [] (by simp)
  have hfnd := hbnd.filter (fun nm => decide (nm ∈ s.grn.input_species_names))
  rw [List.perm_ext_iff_of_nodup hfnd hinn]
  intro nm
  rw [List.mem_filter]
  constructor
  · rintro ⟨_, h2⟩
    simpa using h2
  · intro hnm
    refine ⟨?_, by simpa using hnm⟩
    rcases List.mem_map.mp (hinsub nm hnm) with ⟨sp, hsp, hspname⟩
    have hfind : (s.grn.species.find? (fun sp1 => sp1.name = nm)).isSome := by
      cases hf : s.grn.species.find? (fun sp1 => sp1.name = nm) with
      | none =>
        have := List.find?_eq_none.mp hf sp hsp
        simp [hspname] at this
      | some x => rfl
    obtain ⟨kv, hkv, hkvn⟩ := hcov sp hsp
    exact speciesFold_names_cover s.nodes s.grn.species [] nm
      ⟨kv, hkv, by rw [hkvn, hspname]⟩ hfind

/-- C2 (amended): the save/load round trip is observational only up to known
losses.  On a state whose display names are non-empty, whose species names
and input list are duplicate-free and satisfy input/delta exclusivity, whose
input names and species are all referenced (inputs among species names, every
species carried by some live node), whose edges have live endpoints, and
whose edge endpoint pairs are distinct, loading the saved document succeeds
and reproduces the gene list exactly, the species list and the input list up
to permutation, the edge observables exactly and in order, and the node
observables exactly and in order EXCEPT that every stored position shifts by
(-radius, -radius): `save` writes `pos()` while the reload constructor
subtracts the radius again, so positions drift one radius per round trip and
the raw claim (observational equality) fails. -/
theorem C2_roundtrip_amended (s t : NetworkView)
    (hdisp : ∀ kv ∈ s.nodes, kv.2.display_name ≠ "")
    (hspn : (s.grn.species.map (fun sp => sp.name)).Nodup)
    (hinn : s.grn.input_species_names.Nodup)
    (hinv : inputDeltaInv s.grn)
    (hinsub : ∀ nm ∈ s.grn.input_species_names,
      nm ∈ s.grn.species.map (fun sp => sp.name))
    (hcov : ∀ sp ∈ s.grn.species, ∃ kv ∈ s.nodes, kv.2.species_name = sp.name)
    (hedge : ∀ e ∈ s.edges,
      e.source_node.node_id ∈ s.nodes.map (fun kv => kv.2.node_id) ∧
      e.target_node.node_id ∈ s.nodes.map (fun kv => kv.2.node_id))
    (hpair : (s.edges.map pairOf).Nodup) :
    ∃ s2, MainWindow.load_network (some (MainWindow.save_network s)) t = (s2, true) ∧
      s2.grn.genes = s.grn.genes ∧
      List.Perm s2.grn.species s.grn.species ∧
      List.Perm s2.grn.input_species_names s.grn.input_species_names ∧
      s2.nodes.map (fun kv => nodeObs kv.2) =
        s.nodes.map (fun kv => nodeObs (shiftNode kv.2)) ∧
      s2.edges.map edgeObs = s.edges.map edgeObs := by
  have hallnames : ∀ r ∈ (buildSpeciesData s.nodes s.grn.species).map
      (fun sp => (⟨some sp.name, sp.delta⟩ : RawSpecies)), r.name.isSome := by
    intro r hr
    rcases List.mem_map.mp hr with ⟨sp, _, heq⟩
    rw [← heq]
    rfl
  have hS : loadSpeciesLoop
      ((buildSpeciesData s.nodes s.grn.species).map
        (fun sp => (⟨some sp.name, sp.delta⟩ : RawSpecies)))
      (some s.grn.input_species_names) GRN.empty =
      (⟨((buildSpeciesData s.nodes s.grn.species).map
            (fun sp => (⟨some sp.name, sp.delta⟩ : RawSpecies))).map
              (speciesOfRaw s.grn.input_species_names),
        inputNamesOfRaw s.grn.input_species_names
          ((buildSpeciesData s.nodes s.grn.species).map
            (fun sp => (⟨some sp.name, sp.delta⟩ : RawSpecies))), []⟩, true) := by
    rw [loadSpeciesLoop_spec _ s.grn.input_species_names GRN.empty hallnames]
    rfl
  have hcomplete : ∀ r ∈ s.nodes.map (fun kv => nodeToRaw kv.2),
      r.species_name.isSome ∧ r.x.isSome ∧ r.y.isSome := by
    intro r hr
    rcases List.mem_map.mp hr with ⟨kv, _, heq⟩
    rw [← heq]
    exact ⟨rfl, rfl, rfl⟩
  have hN := loadNodesLoop_eq_buildLoad (s.nodes.map (fun kv => nodeToRaw kv.2))
      { grn := ⟨((buildSpeciesData s.nodes s.grn.species).map
              (fun sp => (⟨some sp.name, sp.delta⟩ : RawSpecies))).map
                (speciesOfRaw s.grn.input_species_names),
            inputNamesOfRaw s.grn.input_species_names
              ((buildSpeciesData s.nodes s.grn.species).map
                (fun sp => (⟨some sp.name, sp.delta⟩ : RawSpecies))), []⟩,
        nodes := [], edges := [], mode := t.mode, source_node := t.source_node,
        temp_line := t.temp_line, edge_type := t.edge_type, counter := t.counter }
      [] hcomplete
      (by intro kv hkv; exact absurd hkv (List.not_mem_nil kv))
      (by intro kv hkv k hk; exact absurd hkv (List.not_mem_nil kv))
  have hB : buildLoad (s.nodes.map (fun kv => nodeToRaw kv.2)) t.counter [] =
      (reloadNodes s.nodes t.counter, reloadMap s.nodes t.counter [],
       t.counter + s.nodes.length) := buildLoad_save s.nodes t.counter []
  have hmapid : ∀ kv ∈ reloadMap s.nodes t.counter [], kv.2.node_id = kv.1 :=
    reloadMap_value_id s.nodes t.counter []
      (by intro kv hkv; exact absurd hkv (List.not_mem_nil kv))
  have hres : ∀ e ∈ s.edges,
      (dictGet (reloadMap s.nodes t.counter []) e.source_node.node_id).isSome ∧
      (dictGet (reloadMap s.nodes t.counter []) e.target_node.node_id).isSome := by
    intro e he
    exact ⟨reloadMap_get_isSome s.nodes t.counter [] _ (Or.inr (hedge e he).1),
           reloadMap_get_isSome s.nodes t.counter [] _ (Or.inr (hedge e he).2)⟩
  obtain ⟨s3, heq3, hgrn3, hnds3, newEdges, hedges3, hobs3⟩ :=
    loadEdgesLoop_reload s.edges
      { grn := ⟨((buildSpeciesData s.nodes s.grn.species).map
              (fun sp => (⟨some sp.name, sp.delta⟩ : RawSpecies))).map
                (speciesOfRaw s.grn.input_species_names),
            inputNamesOfRaw s.grn.input_species_names
              ((buildSpeciesData s.nodes s.grn.species).map
                (fun sp => (⟨some sp.name, sp.delta⟩ : RawSpecies))), []⟩,
        nodes := [] ++ reloadNodes s.nodes t.counter, edges := [],
        mode := t.mode, source_node := t.source_node, temp_line := t.temp_line,
        edge_type := t.edge_type, counter := t.counter + s.nodes.length }
      (reloadMap s.nodes t.counter []) [] hmapid hres
      (fun e _ => List.not_mem_nil (pairOf e)) hpair
  have hfilter : List.filter
      (fun e => decide (e.source_node.node_id ∈ s.nodes.map (fun kv => kv.2.node_id) ∧
        e.target_node.node_id ∈ s.nodes.map (fun kv => kv.2.node_id))) s.edges =
      s.edges := by
    rw [List.filter_eq_self]
    intro e he
    simpa using hedge e he
  refine ⟨{ s3 with grn := { s3.grn with genes := s.grn.genes } }, ?_, ?_, ?_, ?_, ?_, ?_⟩
  · simp only [MainWindow.load_network, MainWindow.save_network, NetworkView.clear,
      hS, hfilter, hN, hB, heq3]
    simp
  · rfl
  · show List.Perm s3.grn.species s.grn.species
    have hg : s3.grn =
        (⟨((buildSpeciesData s.nodes s.grn.species).map
              (fun sp => (⟨some sp.name, sp.delta⟩ : RawSpecies))).map
                (speciesOfRaw s.grn.input_species_names),
          inputNamesOfRaw s.grn.input_species_names
            ((buildSpeciesData s.nodes s.grn.species).map
              (fun sp => (⟨some sp.name, sp.delta⟩ : RawSpecies))), []⟩ : GRN) := hgrn3
    rw [hg]
    show List.Perm
      (((buildSpeciesData s.nodes s.grn.species).map
        (fun sp => (⟨some sp.name, sp.delta⟩ : RawSpecies))).map
          (speciesOfRaw s.grn.input_species_names))
      s.grn.species
    have hinvb : ∀ sp ∈ buildSpeciesData s.nodes s.grn.species,
        (sp.name ∈ s.grn.input_species_names ↔ sp.delta = none) := by
      intro sp hsp
      rcases speciesFold_mem s.nodes s.grn.species [] sp hsp with h1 | ⟨h1, _⟩
      · exact absurd h1 (List.not_mem_nil sp)
      · exact hinv sp h1
    rw [speciesOfRaw_roundtrip _ _ hinvb]
    exact buildSpeciesData_perm s hspn hcov
  · show List.Perm s3.grn.input_species_names s.grn.input_species_names
    have hg : s3.grn =
        (⟨((buildSpeciesData s.nodes s.grn.species).map
              (fun sp => (⟨some sp.name, sp.delta⟩ : RawSpecies))).map
                (speciesOfRaw s.grn.input_species_names),
          inputNamesOfRaw s.grn.input_species_names
            ((buildSpeciesData s.nodes s.grn.species).map
              (fun sp => (⟨some sp.name, sp.delta⟩ : RawSpecies))), []⟩ : GRN) := hgrn3
    rw [hg]
    show List.Perm
      (inputNamesOfRaw s.grn.input_species_names
        ((buildSpeciesData s.nodes s.grn.species).map
          (fun sp => (⟨some sp.name, sp.delta⟩ : RawSpecies))))
      s.grn.input_species_names
    rw [inputNamesOfRaw_save]
    exact savedInputs_perm s hinn hinsub hcov
  · show s3.nodes.map (fun kv => nodeObs kv.2) =
      s.nodes.map (fun kv => nodeObs (shiftNode kv.2))
    have hn2 : s3.nodes = reloadNodes s.nodes t.counter := by
      have h0 : s3.nodes = [] ++ reloadNodes s.nodes t.counter := hnds3
      simpa using h0
    rw [hn2]
    exact reloadNodes_obs s.nodes t.counter hdisp
  · show s3.edges.map edgeObs = s.edges.map edgeObs
    have he2 : s3.edges = newEdges := by
      have h0 : s3.edges = [] ++ newEdges := hedges3
      simpa using h0
    rw [he2, hobs3]

/-- Witness for `C2_roundtrip_amended` at the reachable two-edge state
`st5`. -/
theorem C2_roundtrip_amended_witness :
    ((∀ kv ∈ st5.nodes, kv.2.display_name ≠ "") ∧
     (st5.grn.species.map (fun sp => sp.name)).Nodup ∧
     st5.grn.input_species_names.Nodup ∧
     inputDeltaInv st5.grn ∧
     (∀ nm ∈ st5.grn.input_species_names,
       nm ∈ st5.grn.species.map (fun sp => sp.name)) ∧
     (∀ sp ∈ st5.grn.species, ∃ kv ∈ st5.nodes, kv.2.species_name = sp.name) ∧
     (∀ e ∈ st5.edges,
       e.source_node.node_id ∈ st5.nodes.map (fun kv => kv.2.node_id) ∧
       e.target_node.node_id ∈ st5.nodes.map (fun kv => kv.2.node_id)) ∧
     (st5.edges.map pairOf).Nodup) ∧
    (∃ s2, MainWindow.load_network (some (MainWindow.save_network st5)) st5 = (s2, true) ∧
      s2.grn.genes = st5.grn.genes ∧
      List.Perm s2.grn.species st5.grn.species ∧
      List.Perm s2.grn.input_species_names st5.grn.input_species_names ∧
      s2.nodes.map (fun kv => nodeObs kv.2) =
        st5.nodes.map (fun kv => nodeObs (shiftNode kv.2)) ∧
      s2.edges.map edgeObs = st5.edges.map edgeObs) :=
  ⟨⟨by decide, by decide, by decide, by decide, by decide, by decide, by decide, by decide⟩,
   C2_roundtrip_amended st5 st5 (by decide) (by decide) (by decide) (by decide)
     (by decide) (by decide) (by decide) (by decide)⟩

/-- Under valid edge types, every document record whose endpoints resolve
through the map leaves an edge carrying its resolved pair in the final
state: either the record itself creates it, or an earlier record of the same
pair already did. -/
theorem loadEdgesLoop_creates (l : List RawEdgeData) :
    ∀ (s : NetworkView) (m : List (String × NetworkNode)) (seen : List (String × String)),
      (∀ r ∈ l, r.type = some 1 ∨ r.type = some (-1)) →
      (∀ q ∈ seen, ∃ e ∈ s.edges, pairOf e = q) →
      ∀ r ∈ l, ∀ p, resolvedPair m r = some p →
        ∃ e ∈ (loadEdgesLoop l s m seen).1.edges, pairOf e = p := by
  induction l with
  | nil =>
    intro s m seen hty hseen r hr
    exact absurd hr (List.not_mem_nil r)
  | cons r0 rest ih =>
    intro s m seen hty hseen r hr p hp
    rw [loadEdgesLoop]
    cases hsrc : r0.source_id.bind (dictGet m) with
    | none =>
      rcases List.mem_cons.mp hr with rfl | hr1
      · unfold resolvedPair at hp
        rw [hsrc] at hp
        exact Option.noConfusion hp
      · exact ih s m seen (fun r1 h1 => hty r1 (List.mem_cons_of_mem r0 h1)) hseen r hr1 p hp
    | some sn =>
      cases htgt : r0.target_id.bind (dictGet m) with
      | none =>
        rcases List.mem_cons.mp hr with rfl | hr1
        · unfold resolvedPair at hp
          rw [hsrc, htgt] at hp
          simp at hp
        · exact ih s m seen (fun r1 h1 => hty r1 (List.mem_cons_of_mem r0 h1)) hseen r hr1 p hp
      | some tn =>
        simp only
        by_cases hseenp : (sn.node_id, tn.node_id) ∈ seen
        · rw [if_pos hseenp]
          rcases List.mem_cons.mp hr with rfl | hr1
          · have hpp : p = (sn.node_id, tn.node_id) := by
              unfold resolvedPair at hp
              rw [hsrc, htgt] at hp
              simp only at hp
              exact (Option.some.inj hp).symm
            obtain ⟨e0, he0, hpe0⟩ := hseen (sn.node_id, tn.node_id) hseenp
            obtain ⟨s3, heq, _, _, newEdges, hedges, _⟩ :=
              loadEdgesLoop_total rest s m seen
                (fun r1 h1 => hty r1 (List.mem_cons_of_mem r h1))
            rw [heq]
            refine ⟨e0, ?_, by rw [hpe0, hpp]⟩
            show e0 ∈ s3.edges
            rw [hedges]
            exact List.mem_append.mpr (Or.inl he0)
          · exact ih s m seen (fun r1 h1 => hty r1 (List.mem_cons_of_mem r0 h1)) hseen r hr1 p hp
        · rw [if_neg hseenp]
          have hty0 := hty r0 (List.mem_cons_self r0 rest)
          have hof : ∃ et, r0.type = some (et : EdgeType).value ∧
              EdgeType.ofValue ((et : EdgeType).value) = some et := by
            rcases hty0 with h1 | h1
            · exact ⟨.ACTIVATION, h1, rfl⟩
            · exact ⟨.INHIBITION, h1, rfl⟩
          obtain ⟨et, hty2, hov⟩ := hof
          rw [hty2]
          simp only [hov]
          have hseen2 : ∀ q ∈ seen ++ [(sn.node_id, tn.node_id)],
              ∃ e ∈ ({ s with
                  edges := s.edges ++ [⟨s.counter, sn, tn, et, r0.kd.getD 5, r0.n.getD 2⟩],
                  counter := s.counter + 1 } : NetworkView).edges, pairOf e = q := by
            intro q hq
            rcases List.mem_append.mp hq with h1 | h1
            · obtain ⟨e0, he0, hpe0⟩ := hseen q h1
              exact ⟨e0, List.mem_append.mpr (Or.inl he0), hpe0⟩
            · have hq2 := List.mem_singleton.mp h1
              refine ⟨⟨s.counter, sn, tn, et, r0.kd.getD 5, r0.n.getD 2⟩,
                List.mem_append.mpr (Or.inr (by simp)), ?_⟩
              rw [hq2]
              rfl
          rcases List.mem_cons.mp hr with rfl | hr1
          · have hpp : p = (sn.node_id, tn.node_id) := by
              unfold resolvedPair at hp
              rw [hsrc, htgt] at hp
              simp only at hp
              exact (Option.some.inj hp).symm
            obtain ⟨s3, heq, _, _, newEdges, hedges, _⟩ :=
              loadEdgesLoop_total rest
                { s with
                  edges := s.edges ++ [⟨s.counter, sn, tn, et, r.kd.getD 5, r.n.getD 2⟩],
                  counter := s.counter + 1 }
                m (seen ++ [(sn.node_id, tn.node_id)])
                (fun r1 h1 => hty r1 (List.mem_cons_of_mem r h1))
            rw [heq]
            refine ⟨⟨s.counter, sn, tn, et, r.kd.getD 5, r.n.getD 2⟩, ?_,
              by rw [hpp]; rfl⟩
            show (⟨s.counter, sn, tn, et, r.kd.getD 5, r.n.getD 2⟩ : NetworkEdge) ∈ s3.edges
            rw [hedges]
            exact List.mem_append.mpr (Or.inl (List.mem_append.mpr (Or.inr (by simp))))
          · exact ih _ m _ (fun r1 h1 => hty r1 (List.mem_cons_of_mem r0 h1)) hseen2 r hr1 p hp

/-- In an edge list with pairwise-distinct endpoint pairs, filtering for the
pair of a member yields exactly that member. -/
theorem filter_pair_unique (es : List NetworkEdge) :
    ∀ (p : String × String), (es.map pairOf).Nodup →
      ∀ e0 ∈ es, pairOf e0 = p →
      es.filter (fun e1 => pairOf e1 = p) = [e0] := by
  induction es with
  | nil =>
    intro p hnd e0 he0
    exact absurd he0 (List.not_mem_nil e0)
  | cons e es' ih =>
    intro p hnd e0 he0 hp
    have hnd' : (∀ x ∈ es', ¬ pairOf x = pairOf e) ∧ (es'.map pairOf).Nodup := by
      simpa using hnd
    rcases List.mem_cons.mp he0 with rfl | h1
    · rw [List.filter_cons, if_pos (by simpa using hp)]
      have hrest : es'.filter (fun e1 => pairOf e1 = p) = [] := by
        rw [List.filter_eq_nil_iff]
        intro e1 he1 hcon
        have hc2 : pairOf e1 = p := by simpa using hcon
        exact hnd'.1 e1 he1 (by rw [hc2, ← hp])
      rw [hrest]
    · have hne : ¬ pairOf e = p := by
        intro hcon
        exact hnd'.1 e0 h1 (by rw [hp, ← hcon])
      rw [List.filter_cons, if_neg (by simpa using hne)]
      exact ih p hnd'.2 e0 h1 hp

/-- C9: loading deduplicates edges.  After any load the ordered endpoint
pairs of the edges are pairwise distinct; every restored edge carries the
type/kd/n of the FIRST document record that resolves to its endpoint pair;
on valid edge types, every record whose endpoints resolve leaves EXACTLY ONE
edge with its pair in the result; and concretely, loading the document
`docDup` (two edge records on the same ordered pair, as written by a save
after two `addEdge` calls) succeeds and creates a single edge carrying the
first record's type/kd/n. -/
theorem C9_duplicate_edges_deduplicated :
    (∀ (nd : NetworkData) (s : NetworkView),
       (((MainWindow.load_network (some nd) s).1).edges.map pairOf).Nodup) ∧
    (∀ (l : List RawEdgeData) (s : NetworkView) (m : List (String × NetworkNode)),
       s.edges = [] →
       ∀ e ∈ (loadEdgesLoop l s m []).1.edges,
         ∃ r1, l.find? (fun r2 => resolvedPair m r2 = some (pairOf e)) = some r1 ∧
           r1.type = some e.edge_type.value ∧ e.kd = r1.kd.getD 5 ∧ e.n = r1.n.getD 2) ∧
    (∀ (l : List RawEdgeData) (s : NetworkView) (m : List (String × NetworkNode)),
       s.edges = [] →
       (∀ r ∈ l, r.type = some 1 ∨ r.type = some (-1)) →
       ∀ r ∈ l, ∀ p, resolvedPair m r = some p →
         ∃ e0, (loadEdgesLoop l s m []).1.edges.filter
           (fun e1 => pairOf e1 = p) = [e0]) ∧
    (MainWindow.load_network (some docDup) NetworkView.init).2 = true ∧
    ((MainWindow.load_network (some docDup) NetworkView.init).1.edges.map
      (fun e => (pairOf e, e.edge_type, e.kd, e.n))) =
      [(("na", "nb"), EdgeType.ACTIVATION, 5, 2)] := by
  refine ⟨?_, ?_, ?_, by decide, by decide⟩
  · intro nd s
    rcases load_network_edges_shape nd s with h | ⟨el, s2, m, h2, heq⟩
    · rw [h]
      simp
    · rw [heq]
      refine loadEdgesLoop_pair_nodup el s2 m [] ?_ ?_
      · rw [h2]
        simp
      · rw [h2]
        intro e he
        exact absurd he (List.not_mem_nil e)
  · intro l s m h0 e he
    have hseen0 : ∀ e1 ∈ s.edges, pairOf e1 ∈ ([] : List (String × String)) := by
      rw [h0]
      intro e1 he1
      exact absurd he1 (List.not_mem_nil e1)
    rcases loadEdgesLoop_first_occurrence l s m [] hseen0 e he with ho | ⟨hnew, r1, hfind, hrest⟩
    · rw [h0] at ho
      exact absurd ho (List.not_mem_nil e)
    · exact ⟨r1, hfind, hrest⟩
  · intro l s m h0 hty r hr p hp
    have hseen0 : ∀ q ∈ ([] : List (String × String)), ∃ e ∈ s.edges, pairOf e = q := by
      intro q hq
      exact absurd hq (List.not_mem_nil q)
    obtain ⟨e0, he0, hpe0⟩ := loadEdgesLoop_creates l s m [] hty hseen0 r hr p hp
    have hnd : ((loadEdgesLoop l s m []).1.edges.map pairOf).Nodup := by
      refine loadEdgesLoop_pair_nodup l s m [] ?_ ?_
      · rw [h0]
        simp
      · rw [h0]
        intro e he
        exact absurd he (List.not_mem_nil e)
    exact ⟨e0, filter_pair_unique _ p hnd e0 he0 hpe0⟩

/-- Witness for `C9_duplicate_edges_deduplicated` at the duplicate-edge
document and a concrete node map: the first record's pair resolves, and the
loop leaves exactly one edge with it. -/
theorem C9_duplicate_edges_witness :
    ((((MainWindow.load_network (some docDup) NetworkView.init).1).edges.map pairOf).Nodup) ∧
    NetworkView.init.edges = [] ∧
    (∀ e ∈ (loadEdgesLoop [cEdgeRec1, cEdgeRec2] NetworkView.init
        [("na", cMapNode1), ("nb", cMapNode2)] []).1.edges,
      ∃ r1, [cEdgeRec1, cEdgeRec2].find?
          (fun r2 => resolvedPair [("na", cMapNode1), ("nb", cMapNode2)] r2 =
            some (pairOf e)) = some r1 ∧
        r1.type = some e.edge_type.value ∧ e.kd = r1.kd.getD 5 ∧ e.n = r1.n.getD 2) ∧
    (∀ r ∈ [cEdgeRec1, cEdgeRec2], r.type = some 1 ∨ r.type = some (-1)) ∧
    cEdgeRec1 ∈ [cEdgeRec1, cEdgeRec2] ∧
    resolvedPair [("na", cMapNode1), ("nb", cMapNode2)] cEdgeRec1 = some ("na", "nb") ∧
    (∃ e0, (loadEdgesLoop [cEdgeRec1, cEdgeRec2] NetworkView.init
        [("na", cMapNode1), ("nb", cMapNode2)] []).1.edges.filter
        (fun e1 => pairOf e1 = ("na", "nb")) = [e0]) :=
  ⟨C9_duplicate_edges_deduplicated.1 docDup NetworkView.init, rfl,
   C9_duplicate_edges_deduplicated.2.1 [cEdgeRec1, cEdgeRec2] NetworkView.init
     [("na", cMapNode1), ("nb", cMapNode2)] rfl,
   by decide, by decide, by decide,
   C9_duplicate_edges_deduplicated.2.2.1 [cEdgeRec1, cEdgeRec2] NetworkView.init
     [("na", cMapNode1), ("nb", cMapNode2)] rfl (by decide) cEdgeRec1 (by decide)
     ("na", "nb") (by decide)⟩
